import Mathlib

/-!
# Verification of the arbitrage-bot core

Shallow embedding of the arbitrage engine (`src/core/arbitrage/engine.py`),
the exchange connectors' fee fallback paths
(`src/core/exchanges/{kucoin,binance,ccxt}`), and the KuCoin response
normalizer (`src/core/exchanges/kucoin/kucoin_normalizer.py`).

Python `float` arithmetic is modelled with `ℚ`; Python division is modelled
with total rational division (the embedding's divisions coincide with
Python's wherever Python does not raise `ZeroDivisionError`).  List indexing
`xs[0]` on a possibly-empty list is modelled explicitly (`Option`/`Except`),
since `IndexError`/`KeyError` behavior is part of the verified statements.
Python dicts are modelled as insertion-ordered association lists with
distinct keys (`lookup` finds the first matching key, `upsert` replaces in
place or appends, exactly like dict assignment).
-/

set_option maxHeartbeats 1000000

namespace ArbBot

/-- A price level `[price, size]` of an order book side. -/
abbrev Level := ℚ × ℚ

/-- Normalized order book, as produced by every connector's
`normalize_order_book`: `{symbol, bids, asks, timestamp}`. -/
structure OrderBook where
  symbol : String
  bids : List Level
  asks : List Level
  timestamp : ℚ
deriving Repr, DecidableEq

/-- The accumulation loop shared by both branches of
`ArbitrageEngine.estimate_slippage` (engine.py lines 329-341 / 348-355):
walk the levels while `total_amount < target_amount`, fill
`min(size, target - total)` at each level, and return
`(total_amount, weighted_price)`.  `r` is the remaining target
`target_amount - total_amount`. -/
def fillWalk : List Level → ℚ → ℚ × ℚ
  | [], _ => (0, 0)
  | (price, size) :: rest, r =>
    if 0 < r then
      let fill := min size r
      let acc := fillWalk rest (r - fill)
      (fill + acc.1, price * fill + acc.2)
    else (0, 0)

/-- Python `side[0][0] if side else 0`: the best price of a book side (Python
returns `0` for an empty side at this point in the source). -/
def headPrice : List Level → ℚ
  | [] => 0
  | (p, _) :: _ => p

/-- Model of `ArbitrageEngine.estimate_slippage` (engine.py lines 317-364).
The side is the Python string argument; any value other than `"buy"` takes
the sell branch, as in the source.  Note the source returns the computed
slippage directly: there is no clamping of negative values. -/
def estimate_slippage (order_book : OrderBook) (amount : ℚ) (side : String) : ℚ :=
  if side = "buy" then
    let acc := fillWalk order_book.asks amount
    if 0 < acc.1 then
      let average_price := acc.2 / acc.1
      let best_ask := headPrice order_book.asks
      if 0 < best_ask then (average_price - best_ask) / best_ask else 0
    else 0
  else
    let acc := fillWalk order_book.bids amount
    if 0 < acc.1 then
      let average_price := acc.2 / acc.1
      let best_bid := headPrice order_book.bids
      if 0 < best_bid then (best_bid - average_price) / best_bid else 0
    else 0

/-! ## Python dicts as insertion-ordered association lists -/

/-- First-match lookup, i.e. `d[k]` / `k in d` on a Python dict
(keys are unique in every state the engine constructs). -/
def alookup {β : Type} (k : String) : List (String × β) → Option β
  | [] => none
  | (k', v) :: rest => if k' = k then some v else alookup k rest

/-- Python `d[k] = v` on a dict: replace in place if the key exists,
otherwise append (insertion order). -/
def aupsert {β : Type} (k : String) (v : β) : List (String × β) → List (String × β)
  | [] => [(k, v)]
  | (k', v') :: rest => if k' = k then (k, v) :: rest else (k', v') :: aupsert k v rest

/-- A cached trading-fee entry `{'maker': ..., 'taker': ...}`.  The engine
reads these dict fields with `.get(..., 0.001)`, so each field may be
absent. -/
structure TradingFee where
  maker : Option ℚ
  taker : Option ℚ
deriving Repr, DecidableEq

/-- A `order_books_cache[symbol][exchange]` entry:
`{'data': order_book, 'timestamp': time.time()}` (engine.py lines 271-274). -/
structure CachedBook where
  data : OrderBook
  timestamp : ℚ
deriving Repr, DecidableEq

/-- The mutable state of one `ArbitrageEngine` instance: the market-data
caches, failure bookkeeping, configuration, and performance counters.
`exchanges` keeps only the (insertion-ordered) exchange names: connector
behavior enters the model through explicit fetch-outcome parameters. -/
structure EngineState where
  exchanges : List String
  initial_capital : ℚ
  min_profit_percentage : ℚ
  max_slippage : ℚ
  target_symbols : List String
  order_books_cache : List (String × List (String × CachedBook))
  trading_fees_cache : List (String × List (String × TradingFee))
  failed_symbols : List (String × List String)
  last_fee_update : ℚ
  opportunities_found : Nat
deriving Repr

/-- Model of `ArbitrageEngine.__init__`: all caches and counters start empty. -/
def initState (exchanges : List String) (initial_capital min_profit_percentage
    max_slippage : ℚ) (target_symbols : List String) : EngineState where
  exchanges := exchanges
  initial_capital := initial_capital
  min_profit_percentage := min_profit_percentage
  max_slippage := max_slippage
  target_symbols := target_symbols
  order_books_cache := []
  trading_fees_cache := []
  failed_symbols := []
  last_fee_update := 0
  opportunities_found := 0

/-- Python `symbol in self.failed_symbols[exchange_name]` (with the outer
`exchange_name in self.failed_symbols` guard). -/
def failedContains (s : EngineState) (exchange_name symbol : String) : Bool :=
  match alookup exchange_name s.failed_symbols with
  | some syms => symbol ∈ syms
  | none => false

/-- Lookup of one cached order book: `self.order_books_cache[symbol][ex]`. -/
def cachedBook (s : EngineState) (symbol ex : String) : Option CachedBook :=
  (alookup symbol s.order_books_cache).bind fun books => alookup ex books

/-! ## `ArbitrageEngine.calculate_potential_profit` (engine.py lines 366-440) -/

/-- Fee-rate lookup for the buy leg (engine.py lines 406-412):
`fees[symbol].get('taker', 0.001)` when the exchange and the symbol are
cached, else the default `0.001`. -/
def takerRate (s : EngineState) (exchange symbol : String) : ℚ :=
  match alookup exchange s.trading_fees_cache with
  | some fees =>
    match alookup symbol fees with
    | some fee => fee.taker.getD (1/1000)
    | none => 1/1000
  | none => 1/1000

/-- Fee-rate lookup for the sell leg (engine.py lines 414-417):
`fees[symbol].get('maker', 0.001)`. -/
def makerRate (s : EngineState) (exchange symbol : String) : ℚ :=
  match alookup exchange s.trading_fees_cache with
  | some fees =>
    match alookup symbol fees with
    | some fee => fee.maker.getD (1/1000)
    | none => 1/1000
  | none => 1/1000

/-- Model of `ArbitrageEngine.calculate_potential_profit`, returning
`(profit, profit_percentage, buy_slippage, sell_slippage)`.  The early
returns mirror the source exactly: a missing cache entry (lines 386-389) or
an empty `buy_order_book['asks']` / `sell_order_book['bids']` (lines
395-396) short-circuits to `(0, 0, 0, 0)`; no other side is checked. -/
def calculate_potential_profit (s : EngineState) (symbol buy_exchange
    sell_exchange : String) (amount : ℚ) : ℚ × ℚ × ℚ × ℚ :=
  match cachedBook s symbol buy_exchange, cachedBook s symbol sell_exchange with
  | some buyEntry, some sellEntry =>
    let buy_order_book := buyEntry.data
    let sell_order_book := sellEntry.data
    match buy_order_book.asks, sell_order_book.bids with
    | (buy_price, _) :: _, (sell_price, _) :: _ =>
      let buy_slippage := estimate_slippage buy_order_book (amount / buy_price) "buy"
      let sell_slippage := estimate_slippage sell_order_book (amount / buy_price) "sell"
      let buy_fee_rate := takerRate s buy_exchange symbol
      let sell_fee_rate := makerRate s sell_exchange symbol
      let adjusted_buy_price := buy_price * (1 + buy_slippage)
      let adjusted_sell_price := sell_price * (1 - sell_slippage)
      let buy_fee := amount * buy_fee_rate
      let coins_bought := (amount - buy_fee) / adjusted_buy_price
      let coins_after_transfer := coins_bought
      let sale_amount_before_fee := coins_after_transfer * adjusted_sell_price
      let sell_fee := sale_amount_before_fee * sell_fee_rate
      let sale_amount := sale_amount_before_fee - sell_fee
      let profit := sale_amount - amount
      let profit_percentage := (profit / amount) * 100
      (profit, profit_percentage, buy_slippage, sell_slippage)
    | _, _ => (0, 0, 0, 0)
  | _, _ => (0, 0, 0, 0)

/-! ## `ArbitrageEngine.scan_opportunities` (engine.py lines 442-563) -/

/-- One emitted opportunity record (engine.py lines 535-546). -/
structure Opportunity where
  symbol : String
  buy_exchange : String
  sell_exchange : String
  buy_price : ℚ
  sell_price : ℚ
  profit : ℚ
  profit_percentage : ℚ
  buy_slippage : ℚ
  sell_slippage : ℚ
  timestamp : ℚ
deriving Repr, DecidableEq

/-- All index pairs `i < j` of a list, in the order produced by the nested
loops `for i in range(n): for j in range(i+1, n)` (engine.py lines 467-468). -/
def orderedPairs {α : Type} : List α → List (α × α)
  | [] => []
  | x :: rest => rest.map (fun y => (x, y)) ++ orderedPairs rest

/-- Result of a scan: the engine state after the scan (counter updates made
before any exception persist), the collected opportunity list, and `ok`,
which is `false` when the scan raised (an `IndexError` from `[0]` on an
empty list). -/
structure ScanResult where
  state : EngineState
  opps : List Opportunity
  ok : Bool
deriving Repr

/-- The body of the inner pair loop (engine.py lines 469-558) for one
(buy, sell) exchange pair of one symbol.  `now` models `time.time()`.
Accesses `sell_book['asks'][0][0]` / `buy_book['bids'][0][0]` in the
reverse-direction branch (lines 497-498) are unguarded in the source, so an
empty list there is an exception (`ok := false`). -/
def scanPairStep (now : ℚ) (symbol : String) (acc : ScanResult)
    (pair : (String × CachedBook) × (String × CachedBook)) : ScanResult :=
  if !acc.ok then acc else
  let buy_exchange := pair.1.1
  let sell_exchange := pair.2.1
  let buy_book := pair.1.2.data
  let sell_book := pair.2.2.data
  match buy_book.asks, sell_book.bids with
  | [], _ => acc
  | _, [] => acc
  | (buy_price, _) :: _, (sell_price, _) :: _ =>
    -- direction: `normal` when sell_price > buy_price, else try `reverse`
    let dir : Option (String × String × ℚ × ℚ × Bool) :=
      if buy_price < sell_price then
        some (buy_exchange, sell_exchange, buy_price, sell_price, true)
      else
        match sell_book.asks, buy_book.bids with
        | (buy_price_reverse, _) :: _, (sell_price_reverse, _) :: _ =>
          if buy_price_reverse < sell_price_reverse then
            some (sell_exchange, buy_exchange, buy_price_reverse,
              sell_price_reverse, true)
          else
            some (buy_exchange, sell_exchange, buy_price, sell_price, false)
        | _, _ => none  -- IndexError: `[0]` on an empty list
    match dir with
    | none => { acc with ok := false }
    | some (bEx, sEx, bPrice, sPrice, favorable) =>
      if !favorable then acc else
      let r := calculate_potential_profit acc.state symbol bEx sEx
        acc.state.initial_capital
      let profit := r.1
      let profit_percentage := r.2.1
      let buy_slippage := r.2.2.1
      let sell_slippage := r.2.2.2
      if acc.state.min_profit_percentage ≤ profit_percentage ∧
          buy_slippage ≤ acc.state.max_slippage / 100 ∧
          sell_slippage ≤ acc.state.max_slippage / 100 then
        { acc with
          state := { acc.state with
            opportunities_found := acc.state.opportunities_found + 1 }
          opps := acc.opps ++ [{
            symbol := symbol
            buy_exchange := bEx
            sell_exchange := sEx
            buy_price := bPrice
            sell_price := sPrice
            profit := profit
            profit_percentage := profit_percentage
            buy_slippage := buy_slippage
            sell_slippage := sell_slippage
            timestamp := now }] }
      else acc

/-- The per-symbol loop body (engine.py lines 455-468): skip symbols with no
cached books, then fold the pair step over all ordered exchange pairs. -/
def scanSymbolStep (now : ℚ) (acc : ScanResult) (symbol : String) : ScanResult :=
  if !acc.ok then acc else
  match alookup symbol acc.state.order_books_cache with
  | none => acc
  | some books => (orderedPairs books).foldl (scanPairStep now symbol) acc

/-- Model of `ArbitrageEngine.scan_opportunities`; `now` models `time.time()` for
opportunity timestamps. -/
def scan_opportunities (s : EngineState) (now : ℚ) : ScanResult :=
  s.target_symbols.foldl (scanSymbolStep now) ⟨s, [], true⟩

/-! ## Market-data refresh (`engine.py` lines 221-310) -/

/-- An environment for one refresh cycle: the outcome of
`exchange.get_order_book(symbol)` per (exchange, symbol), and the outcome of
`exchange.get_trading_fees()` per exchange.  `Except.error` models a raised
exception. -/
structure FetchEnv where
  orderBook : String → String → Except Unit OrderBook
  fees : String → Except Unit (List (String × TradingFee))

/-- Model of `ArbitrageEngine._async_update_order_book` (engine.py lines 256-297):
on an exception the symbol is added to `failed_symbols[exchange]` and the
task returns `False`; an order book with an empty side is not cached and the
task returns `False`; otherwise `{'data': book, 'timestamp': now}` is stored
and the task returns `True`. -/
def updateOrderBook (env : FetchEnv) (now : ℚ) (exchange_name symbol : String)
    (s : EngineState) : EngineState × Bool :=
  match env.orderBook exchange_name symbol with
  | .error _ =>
    let cur := (alookup exchange_name s.failed_symbols).getD []
    let cur' := if symbol ∈ cur then cur else cur ++ [symbol]
    let s' := { s with failed_symbols := aupsert exchange_name cur' s.failed_symbols }
    (s', false)
  | .ok order_book =>
    if order_book.bids = [] ∨ order_book.asks = [] then (s, false)
    else
      let inner := (alookup symbol s.order_books_cache).getD []
      let cache' := aupsert symbol (aupsert exchange_name ⟨order_book, now⟩ inner)
        s.order_books_cache
      let s' := { s with order_books_cache := cache' }
      (s', true)

/-- Model of `ArbitrageEngine._async_update_trading_fees` (engine.py lines 299-310):
exceptions are swallowed (return `False`); an empty (falsy) fee dict is not
cached. -/
def updateTradingFees (env : FetchEnv) (exchange_name : String)
    (s : EngineState) : EngineState × Bool :=
  match env.fees exchange_name with
  | .error _ => (s, false)
  | .ok fees =>
    if fees = [] then (s, false)
    else
      let s' := { s with trading_fees_cache := aupsert exchange_name fees s.trading_fees_cache }
      (s', true)

/-- The refresh task list built by `_update_market_data` (engine.py lines
229-236): one (symbol, exchange) pair per target symbol and exchange,
skipping pairs already in `failed_symbols`. -/
def taskPairs (s : EngineState) : List (String × String) :=
  s.target_symbols.flatMap fun symbol =>
    (s.exchanges.filter fun ex => !failedContains s ex symbol).map
      fun ex => (symbol, ex)

/-- Model of `ArbitrageEngine._update_market_data` (engine.py lines 221-254): run all
order-book refresh tasks, then (throttled to once an hour, or whenever the
fee cache is empty) the per-exchange fee refresh tasks.
`asyncio.gather(..., return_exceptions=True)` is modelled by folding the
tasks in creation order: every task runs regardless of other tasks'
failures, and distinct tasks write to distinct keys. -/
def updateMarketData (env : FetchEnv) (now : ℚ) (s : EngineState) : EngineState :=
  let doFees := s.trading_fees_cache = [] ∨ 3600 < now - s.last_fee_update
  let s0 := if doFees then { s with last_fee_update := now } else s
  let pairs := taskPairs s
  let s1 := pairs.foldl
    (fun st p => (updateOrderBook env now p.2 p.1 st).1) s0
  if doFees then
    s.exchanges.foldl (fun st ex => (updateTradingFees env ex st).1) s1
  else s1

/-- The engine operations that can touch the engine state after
construction.  Symbol discovery (`_discover_tradable_symbols`) only writes
`target_symbols` and is irrelevant to the cache claims, so it is modelled by
the ability of `Op.updateMarketData`'s environment to vary per call. -/
inductive Op where
  | updateMarketData (env : FetchEnv) (now : ℚ)
  | updateOrderBook (env : FetchEnv) (now : ℚ) (exchange_name symbol : String)
  | updateTradingFees (env : FetchEnv) (exchange_name : String)
  | scan (now : ℚ)

/-- Apply one engine operation to the state. -/
def Op.apply (s : EngineState) : Op → EngineState
  | .updateMarketData env now => ArbBot.updateMarketData env now s
  | .updateOrderBook env now ex sym => (ArbBot.updateOrderBook env now ex sym s).1
  | .updateTradingFees env ex => (ArbBot.updateTradingFees env ex s).1
  | .scan now => (scan_opportunities s now).state

/-- Apply a sequence of engine operations. -/
def runOps (s : EngineState) (ops : List Op) : EngineState :=
  ops.foldl Op.apply s

/-! ## Properties of the slippage walk -/

/-- All sizes of a book side are nonnegative. -/
def sizesNonneg (l : List Level) : Prop := ∀ e ∈ l, (0 : ℚ) ≤ e.2

/-- All prices of a book side are at least `p`. -/
def pricesGE (p : ℚ) (l : List Level) : Prop := ∀ e ∈ l, p ≤ e.1

/-- All prices of a book side are at most `p`. -/
def pricesLE (p : ℚ) (l : List Level) : Prop := ∀ e ∈ l, e.1 ≤ p

/-- Asks sorted ascending by price (best ask first), the `OrderBook`
invariant of the spec's data model. -/
def asksSorted (l : List Level) : Prop := l.Pairwise fun a b => a.1 ≤ b.1

/-- Bids sorted descending by price (best bid first). -/
def bidsSorted (l : List Level) : Prop := l.Pairwise fun a b => b.1 ≤ a.1

/-- A well-formed order book: both sides sorted, best price first, with
nonnegative sizes. -/
def OrderBook.wellFormed (b : OrderBook) : Prop :=
  asksSorted b.asks ∧ bidsSorted b.bids ∧ sizesNonneg b.asks ∧ sizesNonneg b.bids

inductive Json where
  | null
  | bool (b : Bool)
  | num (q : ℚ)
  | str (s : String)
  | arr (items : List Json)
  | obj (fields : List (String × Json))
deriving Repr

/-- Python `d.get(k, default)`: only dicts have `.get` (otherwise
`AttributeError`). -/
def pyGet (d : Json) (k : String) (default : Json) : Except String Json :=
  match d with
  | .obj fields => .ok ((alookup k fields).getD default)
  | _ => .error "AttributeError"

/-- Python `d[k]`: `KeyError` when the key is missing, `TypeError` when `d` is not
a dict. -/
def pyIndex (d : Json) (k : String) : Except String Json :=
  match d with
  | .obj fields =>
    match alookup k fields with
    | some v => .ok v
    | none => .error "KeyError"
  | _ => .error "TypeError"

/-- Python truthiness of a JSON value. -/
def pyTruthy : Json → Bool
  | .null => false
  | .bool b => b
  | .num q => q ≠ 0
  | .str s => s ≠ ""
  | .arr items => !items.isEmpty
  | .obj fields => !fields.isEmpty

/-- Splitting on a separator at the character-list level (the hull of Python's `str.split` with
a single-character separator): always returns at least one group. -/
def splitOnChar (sep : Char) : List Char → List (List Char)
  | [] => [[]]
  | c :: cs =>
    if c = sep then [] :: splitOnChar sep cs
    else
      match splitOnChar sep cs with
      | [] => [[c]]
      | g :: gs => (c :: g) :: gs

/-- The numeric value of a non-empty all-digit character list. -/
def digitsValAux : Nat → List Char → Option Nat
  | n, [] => some n
  | n, c :: cs =>
    if c.isDigit then digitsValAux (n * 10 + (c.toNat - 48)) cs else none

/-- The numeric value of a non-empty all-digit character list. -/
def digitsVal (cs : List Char) : Option Nat :=
  if cs.isEmpty then none else digitsValAux 0 cs

/-- A decimal-literal parser for `float(str)`: optional surrounding
whitespace, optional sign, integer part, optional fractional part
(Python's `float` also accepts exponents and specials, which none of the
exercised responses use; those parse to `ValueError` here, erring on the
side of more exceptions, never fewer successes than Python). -/
def parseDecimal (s : String) : Option ℚ :=
  let t := ((s.data.dropWhile Char.isWhitespace).reverse.dropWhile
    Char.isWhitespace).reverse
  let signAndRest : Bool × List Char :=
    match t with
    | '-' :: rest => (true, rest)
    | '+' :: rest => (false, rest)
    | _ => (false, t)
  let neg := signAndRest.1
  let t := signAndRest.2
  let signed : ℚ → ℚ := fun q => if neg then -q else q
  match splitOnChar '.' t with
  | [i] => (digitsVal i).map fun n => signed n
  | [i, f] =>
    if i = [] ∧ f = [] then none
    else
      match (if i = [] then some 0 else digitsVal i),
        (if f = [] then some 0 else digitsVal f) with
      | some a, some b =>
        some (signed ((a : ℚ) + (b : ℚ) / ((10 : ℚ) ^ f.length)))
      | _, _ => none
  | _ => none

/-- Python `float(x)` on a JSON value: numbers pass through, booleans coerce to
`0`/`1`, numeric strings parse, everything else raises. -/
def pyFloat : Json → Except String ℚ
  | .num q => .ok q
  | .bool b => .ok (if b then 1 else 0)
  | .str s =>
    match parseDecimal s with
    | some q => .ok q
    | none => .error "ValueError"
  | _ => .error "TypeError"

/-- Python `str(x)`.  Strings, booleans and `None` render exactly as Python does;
numbers use an abridged rational rendering (integral values render as
Python floats do; the claims exercised here only apply `str` to string or
absent fields, where this function agrees with Python exactly). -/
def pyStr : Json → String
  | .null => "None"
  | .bool b => if b then "True" else "False"
  | .num q => if q.den = 1 then toString q.num ++ ".0"
      else toString q.num ++ "/" ++ toString q.den
  | .str s => s
  | .arr _ => "<list>"
  | .obj _ => "<dict>"

/-- Python `for x in d`: lists iterate their items, strings their characters,
dicts their keys; other values raise `TypeError`. -/
def pyIter : Json → Except String (List Json)
  | .arr items => .ok items
  | .str s => .ok (s.toList.map fun c => .str (String.mk [c]))
  | .obj fields => .ok (fields.map fun f => .str f.1)
  | _ => .error "TypeError"

/-- Python `str(x).split('.')[-1]` (the split never returns an empty list). -/
def lastDotComponent (s : String) : String :=
  String.mk ((splitOnChar '.' s.data).getLastD [])

/-! ## `KucoinNormalizer` (kucoin_normalizer.py) -/

/-- One entry of the normalized `symbols` list produced by
`KucoinNormalizer.normalize_exchange_info` (lines 16-25). -/
structure SymbolInfo where
  symbol : String
  status : String
  base_asset : String
  quote_asset : String
  min_price : ℚ
  min_qty : ℚ
  price_precision : Nat
  qty_precision : Nat
deriving Repr, DecidableEq

/-- The normalized exchange-info record (lines 27-45).  The constant
`rate_limits` literal of the source is omitted: it is a fixed literal
independent of the input. -/
structure ExchangeInfo where
  exchange : String
  symbols : List SymbolInfo
  server_time : Json
deriving Repr

/-- One normalized balance entry `{'free', 'locked', 'total'}`. -/
structure BalanceEntry where
  free : ℚ
  locked : ℚ
  total : ℚ
deriving Repr, DecidableEq

/-- The body of the `for symbol_info in data` loop of
`normalize_exchange_info` (lines 9-25).  Field accesses mirror the source:
`enableTrading` via `.get` then `[...]`, `baseCurrency`/`quoteCurrency` via
direct indexing (raising `KeyError` when absent), the numeric and precision
fields via `.get` with defaults `0` and `'1'`. -/
def kucoinInfoStep (acc : List SymbolInfo) (symbol_info : Json) :
    Except String (List SymbolInfo) := do
  let enable ← pyGet symbol_info "enableTrading" Json.null
  if pyTruthy enable then
    let base ← pyIndex symbol_info "baseCurrency"
    let quote ← pyIndex symbol_info "quoteCurrency"
    let symbol := pyStr base ++ "/" ++ pyStr quote
    let enable2 ← pyIndex symbol_info "enableTrading"
    let status := if pyTruthy enable2 then "TRADING" else "HALT"
    let min_price ← pyFloat (← pyGet symbol_info "priceIncrement" (Json.num 0))
    let min_qty ← pyFloat (← pyGet symbol_info "baseMinSize" (Json.num 0))
    let pInc ← pyGet symbol_info "priceIncrement" (Json.str "1")
    let price_precision := (lastDotComponent (pyStr pInc)).length
    let bInc ← pyGet symbol_info "baseIncrement" (Json.str "1")
    let qty_precision := (lastDotComponent (pyStr bInc)).length
    pure (acc ++ [⟨symbol, status, pyStr base, pyStr quote, min_price, min_qty,
      price_precision, qty_precision⟩])
  else
    pure acc

/-- Model of `KucoinNormalizer.normalize_exchange_info` (lines 7-45). -/
def normalize_exchange_info (raw_response : Json) : Except String ExchangeInfo := do
  let data ← pyGet raw_response "data" (Json.arr [])
  let items ← pyIter data
  let symbols ← items.foldlM kucoinInfoStep []
  let server_time ← pyGet raw_response "time" Json.null
  pure ⟨"KUCOIN", symbols, server_time⟩

/-- Whether a JSON value can be used as a Python dict key: lists and dicts
are unhashable (`TypeError: unhashable type`); `None`, booleans, numbers
and strings hash fine. -/
def pyHashable : Json → Bool
  | .arr _ => false
  | .obj _ => false
  | _ => true

/-- Python `==` on hashable JSON values, as used for dict-key identity:
booleans compare equal to their numeric values (`True == 1`), numbers to
numbers, strings to strings, `None` only to itself; values of unrelated
kinds are unequal. -/
def pyEqKey : Json → Json → Bool
  | .null, .null => true
  | .bool a, .bool b => a = b
  | .bool a, .num q => (if a then (1 : ℚ) else 0) = q
  | .num q, .bool b => q = (if b then (1 : ℚ) else 0)
  | .num a, .num b => a = b
  | .str a, .str b => a = b
  | _, _ => false

/-- Python `d[k] = v` on a dict with JSON keys: a key already present
(compared by `==`) keeps its original key object and gets the new value,
otherwise the pair is appended in insertion order. -/
def jupsert (k : Json) (v : BalanceEntry) :
    List (Json × BalanceEntry) → List (Json × BalanceEntry)
  | [] => [(k, v)]
  | (k', v') :: rest =>
    if pyEqKey k' k then (k', v) :: rest else (k', v') :: jupsert k v rest

/-- The body of the `for account in data` loop of `normalize_balance`
(lines 86-92): `currency`, `available`, `holds` and `balance` are accessed
by direct indexing.  As in Python, the value dict (the three `float`
calls) is evaluated first; the assignment `result[currency] = ...` then
hashes the key, raising `TypeError` when `currency` is an unhashable
value (a list or a dict). -/
def kucoinBalanceStep (result : List (Json × BalanceEntry)) (account : Json) :
    Except String (List (Json × BalanceEntry)) := do
  let currency ← pyIndex account "currency"
  let free ← pyFloat (← pyIndex account "available")
  let locked ← pyFloat (← pyIndex account "holds")
  let total ← pyFloat (← pyIndex account "balance")
  if pyHashable currency then
    pure (jupsert currency ⟨free, locked, total⟩ result)
  else
    .error "TypeError"

/-- Model of `KucoinNormalizer.normalize_balance` (lines 69-94): a dict `data` is
wrapped into a one-element list, then each account entry is normalized. -/
def normalize_balance (raw_response : Json) :
    Except String (List (Json × BalanceEntry)) := do
  let data ← pyGet raw_response "data" (Json.arr [])
  let accounts ← match data with
    | .obj fields => pure [Json.obj fields]
    | other => pyIter other
  accounts.foldlM kucoinBalanceStep []

/-- Whether `float(j)` succeeds. -/
def isOkFloat (j : Json) : Bool :=
  match pyFloat j with
  | .ok _ => true
  | .error _ => false

/-- A raw exchange-info entry that `normalize_exchange_info` can process:
a dict which, when its `enableTrading` flag is truthy, carries the required
`baseCurrency`/`quoteCurrency` fields and float-convertible (or absent)
`priceIncrement`/`baseMinSize` fields.  All other fields may be missing. -/
def infoEntryOK (e : Json) : Bool :=
  match e with
  | .obj fields =>
    if pyTruthy ((alookup "enableTrading" fields).getD Json.null) then
      (alookup "baseCurrency" fields).isSome &&
      (alookup "quoteCurrency" fields).isSome &&
      isOkFloat ((alookup "priceIncrement" fields).getD (Json.num 0)) &&
      isOkFloat ((alookup "baseMinSize" fields).getD (Json.num 0))
    else true
  | _ => false

/-- A raw balance account entry that `normalize_balance` can process: a
dict carrying the required `currency` field with a hashable (non-list,
non-dict) value, and float-convertible `available`/`holds`/`balance`
fields. -/
def balEntryOK (e : Json) : Bool :=
  match e with
  | .obj fields =>
    (match alookup "currency" fields with
      | some v => pyHashable v
      | none => false) &&
    (match alookup "available" fields with
      | some v => isOkFloat v
      | none => false) &&
    (match alookup "holds" fields with
      | some v => isOkFloat v
      | none => false) &&
    (match alookup "balance" fields with
      | some v => isOkFloat v
      | none => false)
  | _ => false

/-! ## Connector `get_trading_fees` fallback paths -/

/-- A normalized fee map, `symbol -> {'maker', 'taker'}`. -/
abbrev FeeMap := List (String × TradingFee)

/-- The default fee entry `{"maker": 0.001, "taker": 0.001}`. -/
def default_fee : TradingFee := ⟨some (1/1000), some (1/1000)⟩

/-- Python truthiness of an optional credential string. -/
def credentialPresent : Option String → Bool
  | none => false
  | some s => s ≠ ""

/-- Model of `KucoinExchange.get_trading_fees` (kucoin.py lines 196-255).  With any
credential missing (lines 207-211) it returns default fees without touching
the network: `{symbol: default}` when a symbol is passed, else
`{"BTC/USDT": default, "ETH/USDT": default}`.  The credentialed path
(signed `/api/v1/trade-fees` request, or the `get_exchange_info`-driven
bulk path) is abstracted by its outcome `authed`, which is returned
unchanged including any raised exception. -/
def kucoin_get_trading_fees (api_key api_secret api_passphrase : Option String)
    (symbol : Option String) (authed : Except String FeeMap) :
    Except String FeeMap :=
  if !credentialPresent api_key ∨ !credentialPresent api_secret ∨
      !credentialPresent api_passphrase then
    match symbol with
    | some s => .ok [(s, default_fee)]
    | none => .ok [("BTC/USDT", default_fee), ("ETH/USDT", default_fee)]
  else
    authed

/-- The `BTCUSDT -> BTC/USDT` heuristic of `BinanceExchange.get_trading_fees`
(binance.py lines 256-268): the first quote suffix in the fixed list wins,
otherwise the original name is kept. -/
def binanceStdSymbol (symbol_name : String) : String :=
  match ["USDT", "BTC", "ETH", "BNB", "USD", "EUR", "GBP"].find?
    (fun quote => symbol_name.endsWith quote) with
  | some quote => symbol_name.dropRight quote.length ++ "/" ++ quote
  | none => symbol_name

/-- The body of the `for fee_info in response` loop of
`BinanceExchange.get_trading_fees` (lines 253-273). -/
def binanceFeeStep (fees : FeeMap) (fee_info : Json) : Except String FeeMap := do
  let symJ ← pyGet fee_info "symbol" (Json.str "")
  let standard_symbol := binanceStdSymbol (pyStr symJ)
  let maker ← pyFloat (← pyGet fee_info "makerCommission" (Json.num 0))
  let taker ← pyFloat (← pyGet fee_info "takerCommission" (Json.num 0))
  pure (aupsert standard_symbol ⟨some maker, some taker⟩ fees)

/-- Model of `BinanceExchange.get_trading_fees` (binance.py lines 226-275).  There
is no credential check and no fallback: the credentials only determine
whether `_make_request` signs the request (binance.py line 428), and any
exception of the request — as raised by `_handle_error` for the
unauthenticated `/api/v3/tradeFee` call — propagates to the caller.
`transport` is the outcome of `self._make_request(...)`. -/
def binance_get_trading_fees (api_key api_secret : Option String)
    (symbol : Option String) (transport : Except String Json) :
    Except String FeeMap := do
  let response ← transport
  let items ← pyIter response
  items.foldlM binanceFeeStep []

/-- Model of `CcxtExchange.get_trading_fees` (ccxt_connector.py lines 120-156).  The
whole `try` body (the ccxt `fetch_trading_fee(s)` calls, their
`NotSupported` fallbacks and the normalizer) is abstracted by its outcome
`tryBody`; the `except Exception` handler (lines 152-156) turns any raised
exception into the default fee map. -/
def ccxt_get_trading_fees (symbol : Option String)
    (tryBody : Except String FeeMap) : Except String FeeMap :=
  match tryBody with
  | .ok fees => .ok fees
  | .error _ =>
    match symbol with
    | some s => .ok [(s, default_fee)]
    | none => .ok [("BTC/USDT", default_fee), ("ETH/USDT", default_fee)]

/-! ## Concrete states and environments used as test vectors -/

/-- Buy-side book with an empty bids list but liquid asks. -/
def bkBuyNoBids : OrderBook := ⟨"AAA/USDT", [], [(100, 1)], 0⟩

/-- Sell-side book with an empty asks list but liquid bids. -/
def bkSellNoAsks : OrderBook := ⟨"AAA/USDT", [(110, 1)], [], 0⟩

/-- A cache state in which both cached books have one empty side (empty
bids on `A`, empty asks on `B`) while the sides the profit calculation
consults are non-empty. -/
def stOneSided : EngineState :=
  { initState ["A", "B"] 1000 (1/2) (1/2) ["AAA/USDT"] with
    order_books_cache :=
      [("AAA/USDT", [("A", ⟨bkBuyNoBids, 0⟩), ("B", ⟨bkSellNoAsks, 0⟩)])] }

/-- Unsorted asks (descending): `[[100, 1], [10, 1]]`. -/
def bkUnsortedTen : OrderBook := ⟨"AAA/USDT", [], [(100, 1), (10, 1)], 0⟩

/-- Unsorted asks (descending): `[[100, 1], [50, 1]]`. -/
def bkUnsortedFifty : OrderBook := ⟨"AAA/USDT", [], [(100, 1), (50, 1)], 0⟩

/-- A well-formed order book (sorted sides, nonnegative sizes). -/
def bkWellFormed : OrderBook :=
  ⟨"AAA/USDT", [(100, 1), (90, 2)], [(101, 1), (110, 2)], 0⟩

/-- A second well-formed order book at lower prices. -/
def bkWellFormedLow : OrderBook :=
  ⟨"AAA/USDT", [(90, 1), (85, 2)], [(91, 1), (95, 2)], 0⟩

/-- A cache state triggering the unguarded reverse-direction access of
`scan_opportunities`: the normal direction (`A` ask `100` vs `B` bid `90`)
is unfavorable, so the source reads `sell_book['asks'][0]` — and `B` has no
asks. -/
def stReverseCrash : EngineState :=
  { initState ["A", "B"] 1000 (1/2) (1/2) ["AAA/USDT"] with
    order_books_cache :=
      [("AAA/USDT", [("A", ⟨⟨"AAA/USDT", [(99, 1)], [(100, 1)], 0⟩, 0⟩),
                     ("B", ⟨⟨"AAA/USDT", [(90, 1)], [], 0⟩, 0⟩)])] }

/-- A cache state whose books are all two-sided. -/
def stTwoSided : EngineState :=
  { initState ["A", "B"] 1000 (1/2) (1/2) ["AAA/USDT"] with
    order_books_cache :=
      [("AAA/USDT", [("A", ⟨bkWellFormed, 0⟩), ("B", ⟨bkWellFormedLow, 0⟩)])] }

/-- A refresh environment in which fetching `AAA/USDT` on `B` raises and
every other fetch returns `bkWellFormed`; fee fetches raise. -/
def envPartialFailure : FetchEnv where
  orderBook := fun exchange_name symbol =>
    if exchange_name = "B" ∧ symbol = "AAA/USDT" then .error ()
    else .ok { bkWellFormed with symbol := symbol }
  fees := fun _ => .error ()

/-- A refresh environment returning a book with an empty bids side for
every fetch. -/
def envEmptyBook : FetchEnv where
  orderBook := fun _ symbol => .ok ⟨symbol, [], [(100, 1)], 0⟩
  fees := fun _ => .error ()

/-- A fresh two-exchange, two-symbol engine. -/
def stFresh : EngineState := initState ["A", "B"] 1000 (1/2) (1/2)
  ["AAA/USDT", "BBB/USDT"]

/-- A raw KuCoin exchange-info response whose only entry is enabled but
lacks the required `baseCurrency` field. -/
def rawInfoMissingBase : Json :=
  .obj [("data", .arr [.obj [("enableTrading", .bool true)]])]

/-- A raw KuCoin exchange-info response with one fully-populated entry and
one disabled entry. -/
def rawInfoGood : Json :=
  .obj [("data", .arr
    [.obj [("enableTrading", .bool true), ("baseCurrency", .str "BTC"),
           ("quoteCurrency", .str "USDT"), ("priceIncrement", .num (1/100)),
           ("baseMinSize", .num (1/10000)), ("baseIncrement", .num (1/10000))],
     .obj [("enableTrading", .bool false)]])]

/-- A raw KuCoin balance response with one account entry. -/
def rawBalanceGood : Json :=
  .obj [("data", .arr
    [.obj [("currency", .str "BTC"), ("available", .num (1/2)),
           ("holds", .num (1/10)), ("balance", .num (3/5)),
           ("type", .str "trade")]])]

/-- Equality of all engine-state fields except the `opportunities_found`
counter (the only field the scan phase writes). -/
def sameCore (s t : EngineState) : Prop :=
  s.exchanges = t.exchanges ∧ s.initial_capital = t.initial_capital ∧
  s.min_profit_percentage = t.min_profit_percentage ∧
  s.max_slippage = t.max_slippage ∧ s.target_symbols = t.target_symbols ∧
  s.order_books_cache = t.order_books_cache ∧
  s.trading_fees_cache = t.trading_fees_cache ∧
  s.failed_symbols = t.failed_symbols ∧ s.last_fee_update = t.last_fee_update

/-- Every book in an order-book cache has non-empty bids and asks. -/
def CacheInvOn (cache : List (String × List (String × CachedBook))) : Prop :=
  ∀ se ∈ cache, ∀ ee ∈ se.2, ee.2.data.bids ≠ [] ∧ ee.2.data.asks ≠ []

/-- The cache invariant of an engine state. -/
def CacheInv (s : EngineState) : Prop := CacheInvOn s.order_books_cache

/-! # Theorems -/

/-! # Theorems -/

@[simp] theorem alookup_nil {β : Type} (k : String) : alookup (β := β) k [] = none := rfl

theorem alookup_cons {β : Type} (k k' : String) (v : β) (rest : List (String × β)) :
    alookup k ((k', v) :: rest) = if k' = k then some v else alookup k rest := rfl

theorem alookup_aupsert_self {β : Type} (k : String) (v : β) (l : List (String × β)) :
    alookup k (aupsert k v l) = some v := by
  induction l with
  | nil => simp [aupsert, alookup]
  | cons h t ih =>
    obtain ⟨k', v'⟩ := h
    by_cases hk : k' = k <;> simp [aupsert, alookup, hk, ih]

theorem alookup_aupsert_ne {β : Type} (k k' : String) (hk : k ≠ k') (v : β)
    (l : List (String × β)) : alookup k' (aupsert k v l) = alookup k' l := by
  induction l with
  | nil => simp [aupsert, alookup, hk]
  | cons h t ih =>
    obtain ⟨k'', v''⟩ := h
    by_cases h2 : k'' = k
    · subst h2
      simp [aupsert, alookup, hk, ih]
    · simp only [aupsert, if_neg h2]
      by_cases h3 : k'' = k' <;> simp [alookup, h3, ih]

/-- Every entry of an upserted dict is the new entry or an old entry. -/
theorem mem_aupsert {β : Type} {k : String} {v : β} {l : List (String × β)}
    {e : String × β} (he : e ∈ aupsert k v l) : e = (k, v) ∨ e ∈ l := by
  induction l with
  | nil => simpa [aupsert] using he
  | cons h t ih =>
    obtain ⟨k', v'⟩ := h
    by_cases hk : k' = k
    · simp only [aupsert, if_pos hk] at he
      rcases List.mem_cons.mp he with h1 | h1
      · exact Or.inl h1
      · exact Or.inr (List.mem_cons_of_mem _ h1)
    · simp only [aupsert, if_neg hk] at he
      rcases List.mem_cons.mp he with h1 | h1
      · exact Or.inr (List.mem_cons.mpr (Or.inl h1))
      · rcases ih h1 with h2 | h2
        · exact Or.inl h2
        · exact Or.inr (List.mem_cons_of_mem _ h2)

/-! ## Engine state (`ArbitrageEngine.__init__`, engine.py lines 18-64) -/

theorem fillWalk_nonpos (l : List Level) {r : ℚ} (hr : r ≤ 0) :
    fillWalk l r = (0, 0) := by
  cases l with
  | nil => rfl
  | cons e t => obtain ⟨p, s⟩ := e; simp [fillWalk, not_lt.mpr hr]

theorem fillWalk_total_nonneg (l : List Level) (hs : sizesNonneg l) (r : ℚ) :
    0 ≤ (fillWalk l r).1 := by
  induction l generalizing r with
  | nil => simp [fillWalk]
  | cons e t ih =>
    obtain ⟨p, s⟩ := e
    by_cases hr : 0 < r
    · have hf : 0 ≤ min s r := le_min (hs (p, s) (by simp)) hr.le
      have ht := ih (fun x hx => hs x (List.mem_cons_of_mem _ hx)) (r - min s r)
      simp only [fillWalk, if_pos hr]
      positivity
    · simp [fillWalk, hr]

/-- The remainder `r - min s r` is monotone in `r`. -/
theorem remain_mono {s r1 r2 : ℚ} (h : r1 ≤ r2) :
    r1 - min s r1 ≤ r2 - min s r2 := by
  rcases le_total s r1 with hc | hc
  · rw [min_eq_left hc, min_eq_left (hc.trans h)]
    linarith
  · rw [min_eq_right hc]
    have := min_le_right s r2
    linarith

theorem fillWalk_total_mono (l : List Level) (hs : sizesNonneg l) {r1 r2 : ℚ}
    (h : r1 ≤ r2) : (fillWalk l r1).1 ≤ (fillWalk l r2).1 := by
  induction l generalizing r1 r2 with
  | nil => simp [fillWalk]
  | cons e t ih =>
    obtain ⟨p, s⟩ := e
    have hst : sizesNonneg t := fun x hx => hs x (List.mem_cons_of_mem _ hx)
    by_cases hr1 : 0 < r1
    · have hr2 : 0 < r2 := lt_of_lt_of_le hr1 h
      have hf : min s r1 ≤ min s r2 := min_le_min le_rfl h
      have hrec := ih hst (remain_mono (s := s) h)
      simp only [fillWalk, if_pos hr1, if_pos hr2]
      linarith
    · rw [fillWalk_nonpos _ (not_lt.mp hr1)]
      exact fillWalk_total_nonneg _ hs _

theorem fillWalk_weighted_ge (l : List Level) {p : ℚ} (hs : sizesNonneg l)
    (hp : pricesGE p l) (r : ℚ) :
    p * (fillWalk l r).1 ≤ (fillWalk l r).2 := by
  induction l generalizing r with
  | nil => simp [fillWalk]
  | cons e t ih =>
    obtain ⟨q, s⟩ := e
    have hst : sizesNonneg t := fun x hx => hs x (List.mem_cons_of_mem _ hx)
    have hpt : pricesGE p t := fun x hx => hp x (List.mem_cons_of_mem _ hx)
    by_cases hr : 0 < r
    · have hq : p ≤ q := hp (q, s) (by simp)
      have hf : 0 ≤ min s r := le_min (hs (q, s) (by simp)) hr.le
      have h1 : p * min s r ≤ q * min s r := mul_le_mul_of_nonneg_right hq hf
      have h2 := ih hst hpt (r - min s r)
      simp only [fillWalk, if_pos hr]
      linarith
    · simp [fillWalk, hr]

theorem fillWalk_weighted_le (l : List Level) {p : ℚ} (hs : sizesNonneg l)
    (hp : pricesLE p l) (r : ℚ) :
    (fillWalk l r).2 ≤ p * (fillWalk l r).1 := by
  induction l generalizing r with
  | nil => simp [fillWalk]
  | cons e t ih =>
    obtain ⟨q, s⟩ := e
    have hst : sizesNonneg t := fun x hx => hs x (List.mem_cons_of_mem _ hx)
    have hpt : pricesLE p t := fun x hx => hp x (List.mem_cons_of_mem _ hx)
    by_cases hr : 0 < r
    · have hq : q ≤ p := hp (q, s) (by simp)
      have hf : 0 ≤ min s r := le_min (hs (q, s) (by simp)) hr.le
      have h1 : q * min s r ≤ p * min s r := mul_le_mul_of_nonneg_right hq hf
      have h2 := ih hst hpt (r - min s r)
      simp only [fillWalk, if_pos hr]
      linarith
    · simp [fillWalk, hr]

/-- Additional liquidity is filled at prices ≥ `p` when every level's price
is ≥ `p`. -/
theorem fillWalk_incr_ge (l : List Level) {p : ℚ} (hs : sizesNonneg l)
    (hp : pricesGE p l) {r1 r2 : ℚ} (h : r1 ≤ r2) :
    p * ((fillWalk l r2).1 - (fillWalk l r1).1) ≤
      (fillWalk l r2).2 - (fillWalk l r1).2 := by
  induction l generalizing r1 r2 with
  | nil => simp [fillWalk]
  | cons e t ih =>
    obtain ⟨q, s⟩ := e
    have hst : sizesNonneg t := fun x hx => hs x (List.mem_cons_of_mem _ hx)
    have hpt : pricesGE p t := fun x hx => hp x (List.mem_cons_of_mem _ hx)
    by_cases hr1 : 0 < r1
    · have hr2 : 0 < r2 := lt_of_lt_of_le hr1 h
      have hq : p ≤ q := hp (q, s) (by simp)
      have hf : min s r1 ≤ min s r2 := min_le_min le_rfl h
      have h1 : p * (min s r2 - min s r1) ≤ q * (min s r2 - min s r1) :=
        mul_le_mul_of_nonneg_right hq (sub_nonneg.mpr hf)
      have h2 := ih hst hpt (remain_mono (s := s) h)
      simp only [fillWalk, if_pos hr1, if_pos hr2]
      nlinarith [h1, h2]
    · rw [fillWalk_nonpos ((q, s) :: t) (not_lt.mp hr1)]
      have := fillWalk_weighted_ge ((q, s) :: t) hs hp r2
      simpa using this

/-- Additional liquidity is filled at prices ≤ `p` when every level's price
is ≤ `p`. -/
theorem fillWalk_incr_le (l : List Level) {p : ℚ} (hs : sizesNonneg l)
    (hp : pricesLE p l) {r1 r2 : ℚ} (h : r1 ≤ r2) :
    (fillWalk l r2).2 - (fillWalk l r1).2 ≤
      p * ((fillWalk l r2).1 - (fillWalk l r1).1) := by
  induction l generalizing r1 r2 with
  | nil => simp [fillWalk]
  | cons e t ih =>
    obtain ⟨q, s⟩ := e
    have hst : sizesNonneg t := fun x hx => hs x (List.mem_cons_of_mem _ hx)
    have hpt : pricesLE p t := fun x hx => hp x (List.mem_cons_of_mem _ hx)
    by_cases hr1 : 0 < r1
    · have hr2 : 0 < r2 := lt_of_lt_of_le hr1 h
      have hq : q ≤ p := hp (q, s) (by simp)
      have hf : min s r1 ≤ min s r2 := min_le_min le_rfl h
      have h1 : q * (min s r2 - min s r1) ≤ p * (min s r2 - min s r1) :=
        mul_le_mul_of_nonneg_right hq (sub_nonneg.mpr hf)
      have h2 := ih hst hpt (remain_mono (s := s) h)
      simp only [fillWalk, if_pos hr1, if_pos hr2]
      nlinarith [h1, h2]
    · rw [fillWalk_nonpos ((q, s) :: t) (not_lt.mp hr1)]
      have := fillWalk_weighted_le ((q, s) :: t) hs hp r2
      simpa using this

/-- On a side sorted ascending by price, the size-weighted average fill
price is nondecreasing in the target amount (stated without division:
`W₁ * T₂ ≤ W₂ * T₁`). -/
theorem fillWalk_avg_mono (l : List Level) (hsort : asksSorted l)
    (hs : sizesNonneg l) {r1 r2 : ℚ} (h1 : 0 < r1) (h : r1 ≤ r2) :
    (fillWalk l r1).2 * (fillWalk l r2).1 ≤
      (fillWalk l r2).2 * (fillWalk l r1).1 := by
  induction l generalizing r1 r2 with
  | nil => simp [fillWalk]
  | cons e t ih =>
    obtain ⟨p, s⟩ := e
    have hst : sizesNonneg t := fun x hx => hs x (List.mem_cons_of_mem _ hx)
    have hhead : pricesGE p t := fun x hx =>
      (List.pairwise_cons.mp hsort).1 x hx
    have hsort' : asksSorted t := (List.pairwise_cons.mp hsort).2
    have hr2 : 0 < r2 := lt_of_lt_of_le h1 h
    have hs0 : 0 ≤ s := hs (p, s) (by simp)
    rcases le_or_lt r1 s with hc | hc
    · -- the first level alone fills `r1`: average there is exactly `p`
      have hm1 : min s r1 = r1 := min_eq_right hc
      have hge := fillWalk_weighted_ge ((p, s) :: t) hs
        (fun x hx => by
          rcases List.mem_cons.mp hx with h' | h'
          · rw [h']
          · exact hhead x h') r2
      simp only [fillWalk, if_pos h1, if_pos hr2] at hge ⊢
      rw [hm1, sub_self, fillWalk_nonpos t le_rfl]
      norm_num
      nlinarith [mul_le_mul_of_nonneg_left hge h1.le]
    · -- the first level is exhausted by both targets
      have hm1 : min s r1 = s := min_eq_left hc.le
      have hm2 : min s r2 = s := min_eq_left (hc.le.trans h)
      have hr' : r1 - s ≤ r2 - s := by linarith
      have hrec := ih hsort' hst (sub_pos.mpr hc) hr'
      have hincr := fillWalk_incr_ge t hst hhead hr'
      simp only [fillWalk, if_pos h1, if_pos hr2]
      rw [hm1, hm2]
      nlinarith [hrec, mul_le_mul_of_nonneg_left hincr hs0]

/-- On a side sorted descending by price, the size-weighted average fill
price is nonincreasing in the target amount. -/
theorem fillWalk_avg_anti (l : List Level) (hsort : bidsSorted l)
    (hs : sizesNonneg l) {r1 r2 : ℚ} (h1 : 0 < r1) (h : r1 ≤ r2) :
    (fillWalk l r2).2 * (fillWalk l r1).1 ≤
      (fillWalk l r1).2 * (fillWalk l r2).1 := by
  induction l generalizing r1 r2 with
  | nil => simp [fillWalk]
  | cons e t ih =>
    obtain ⟨p, s⟩ := e
    have hst : sizesNonneg t := fun x hx => hs x (List.mem_cons_of_mem _ hx)
    have hhead : pricesLE p t := fun x hx =>
      (List.pairwise_cons.mp hsort).1 x hx
    have hsort' : bidsSorted t := (List.pairwise_cons.mp hsort).2
    have hr2 : 0 < r2 := lt_of_lt_of_le h1 h
    have hs0 : 0 ≤ s := hs (p, s) (by simp)
    rcases le_or_lt r1 s with hc | hc
    · have hm1 : min s r1 = r1 := min_eq_right hc
      have hle := fillWalk_weighted_le ((p, s) :: t) hs
        (fun x hx => by
          rcases List.mem_cons.mp hx with h' | h'
          · rw [h']
          · exact hhead x h') r2
      simp only [fillWalk, if_pos h1, if_pos hr2] at hle ⊢
      rw [hm1, sub_self, fillWalk_nonpos t le_rfl]
      norm_num
      nlinarith [mul_le_mul_of_nonneg_left hle h1.le]
    · have hm1 : min s r1 = s := min_eq_left hc.le
      have hm2 : min s r2 = s := min_eq_left (hc.le.trans h)
      have hr' : r1 - s ≤ r2 - s := by linarith
      have hrec := ih hsort' hst (sub_pos.mpr hc) hr'
      have hincr := fillWalk_incr_le t hst hhead hr'
      simp only [fillWalk, if_pos h1, if_pos hr2]
      rw [hm1, hm2]
      nlinarith [hrec, mul_le_mul_of_nonneg_left hincr hs0]

/-- On an ascending side, every price is at least the head price. -/
theorem pricesGE_headPrice {l : List Level} (h : asksSorted l) :
    pricesGE (headPrice l) l := by
  cases l with
  | nil => intro e he; simp at he
  | cons e t =>
    obtain ⟨p, s⟩ := e
    intro x hx
    rcases List.mem_cons.mp hx with h' | h'
    · subst h'; simp [headPrice]
    · exact (List.pairwise_cons.mp h).1 x h'

/-- On a descending side, every price is at most the head price. -/
theorem pricesLE_headPrice {l : List Level} (h : bidsSorted l) :
    pricesLE (headPrice l) l := by
  cases l with
  | nil => intro e he; simp at he
  | cons e t =>
    obtain ⟨p, s⟩ := e
    intro x hx
    rcases List.mem_cons.mp hx with h' | h'
    · subst h'; simp [headPrice]
    · exact (List.pairwise_cons.mp h).1 x h'

/-- On a well-formed order book the estimated slippage is never negative,
on either side and for any amount — without any clamping in the code. -/
theorem estimate_slippage_nonneg_of_wellFormed (book : OrderBook)
    (hwf : book.wellFormed) (amount : ℚ) (side : String) :
    0 ≤ estimate_slippage book amount side := by
  obtain ⟨hsa, hsb, hna, hnb⟩ := hwf
  rw [estimate_slippage]
  dsimp only
  by_cases hside : side = "buy"
  · rw [if_pos hside]
    by_cases hT : 0 < (fillWalk book.asks amount).1
    · rw [if_pos hT]
      by_cases hp : 0 < headPrice book.asks
      · rw [if_pos hp]
        have hge := fillWalk_weighted_ge book.asks hna (pricesGE_headPrice hsa)
          amount
        have havg : headPrice book.asks ≤
            (fillWalk book.asks amount).2 / (fillWalk book.asks amount).1 :=
          (le_div_iff hT).mpr hge
        have := sub_nonneg.mpr havg
        positivity
      · rw [if_neg hp]
    · rw [if_neg hT]
  · rw [if_neg hside]
    by_cases hT : 0 < (fillWalk book.bids amount).1
    · rw [if_pos hT]
      by_cases hp : 0 < headPrice book.bids
      · rw [if_pos hp]
        have hle := fillWalk_weighted_le book.bids hnb (pricesLE_headPrice hsb)
          amount
        have havg : (fillWalk book.bids amount).2 / (fillWalk book.bids amount).1
            ≤ headPrice book.bids :=
          (div_le_iff hT).mpr hle
        have := sub_nonneg.mpr havg
        positivity
      · rw [if_neg hp]
    · rw [if_neg hT]

/-- On a well-formed order book the estimated slippage is monotone in the
amount, on either side. -/
theorem estimate_slippage_mono_of_wellFormed (book : OrderBook)
    (hwf : book.wellFormed) (side : String) {a1 a2 : ℚ} (h1 : 0 < a1)
    (h12 : a1 ≤ a2) :
    estimate_slippage book a1 side ≤ estimate_slippage book a2 side := by
  obtain ⟨hsa, hsb, hna, hnb⟩ := hwf
  by_cases hside : side = "buy"
  · by_cases hT1 : 0 < (fillWalk book.asks a1).1
    · have hT2 : 0 < (fillWalk book.asks a2).1 :=
        lt_of_lt_of_le hT1 (fillWalk_total_mono book.asks hna h12)
      rw [estimate_slippage, estimate_slippage]
      dsimp only
      rw [if_pos hside, if_pos hside, if_pos hT1, if_pos hT2]
      by_cases hp : 0 < headPrice book.asks
      · rw [if_pos hp, if_pos hp]
        have havg : (fillWalk book.asks a1).2 / (fillWalk book.asks a1).1 ≤
            (fillWalk book.asks a2).2 / (fillWalk book.asks a2).1 := by
          rw [div_le_div_iff hT1 hT2]
          exact fillWalk_avg_mono book.asks hsa hna h1 h12
        rw [div_le_div_iff hp hp]
        exact mul_le_mul_of_nonneg_right
          (sub_le_sub_right havg (headPrice book.asks)) hp.le
      · rw [if_neg hp, if_neg hp]
    · have hz : estimate_slippage book a1 side = 0 := by
        rw [estimate_slippage, if_pos hside, if_neg hT1]
      rw [hz]
      exact estimate_slippage_nonneg_of_wellFormed book ⟨hsa, hsb, hna, hnb⟩ a2
        side
  · by_cases hT1 : 0 < (fillWalk book.bids a1).1
    · have hT2 : 0 < (fillWalk book.bids a2).1 :=
        lt_of_lt_of_le hT1 (fillWalk_total_mono book.bids hnb h12)
      rw [estimate_slippage, estimate_slippage]
      dsimp only
      rw [if_neg hside, if_neg hside, if_pos hT1, if_pos hT2]
      by_cases hp : 0 < headPrice book.bids
      · rw [if_pos hp, if_pos hp]
        have havg : (fillWalk book.bids a2).2 / (fillWalk book.bids a2).1 ≤
            (fillWalk book.bids a1).2 / (fillWalk book.bids a1).1 := by
          rw [div_le_div_iff hT2 hT1]
          exact fillWalk_avg_anti book.bids hsb hnb h1 h12
        rw [div_le_div_iff hp hp]
        exact mul_le_mul_of_nonneg_right
          (sub_le_sub_left havg (headPrice book.bids)) hp.le
      · rw [if_neg hp, if_neg hp]
    · have hz : estimate_slippage book a1 side = 0 := by
        rw [estimate_slippage, if_neg hside, if_neg hT1]
      rw [hz]
      exact estimate_slippage_nonneg_of_wellFormed book ⟨hsa, hsb, hna, hnb⟩ a2
        side

/-! ## Raw exchange responses as JSON-like Python values

The response normalizers receive parsed JSON (Python dicts/lists/strings/
numbers).  `Json` models those values; the `py*` helpers model the exact
Python operations the normalizers use, with `Except String` carrying the
Python exception type name (`KeyError`, `TypeError`, ...). -/

theorem sameCore_refl (s : EngineState) : sameCore s s :=
  ⟨rfl, rfl, rfl, rfl, rfl, rfl, rfl, rfl, rfl⟩

theorem sameCore_trans {s t u : EngineState} (h1 : sameCore s t)
    (h2 : sameCore t u) : sameCore s u := by
  obtain ⟨a1, a2, a3, a4, a5, a6, a7, a8, a9⟩ := h1
  obtain ⟨b1, b2, b3, b4, b5, b6, b7, b8, b9⟩ := h2
  exact ⟨a1.trans b1, a2.trans b2, a3.trans b3, a4.trans b4, a5.trans b5,
    a6.trans b6, a7.trans b7, a8.trans b8, a9.trans b9⟩

/-- A successful first-match lookup finds an actual entry of the list. -/
theorem alookup_mem {β : Type} {k : String} {v : β} :
    ∀ {l : List (String × β)}, alookup k l = some v → (k, v) ∈ l := by
  intro l
  induction l with
  | nil => intro h; simp [alookup] at h
  | cons e t ih =>
    obtain ⟨k', v'⟩ := e
    intro h
    by_cases hk : k' = k
    · subst hk
      rw [alookup_cons, if_pos rfl] at h
      obtain rfl := Option.some_injective _ h
      exact List.mem_cons_self _ _
    · rw [alookup_cons, if_neg hk] at h
      exact List.mem_cons_of_mem _ (ih h)

/-- Invariant preservation through a left fold, with a side condition on
the folded elements. -/
theorem foldl_pres_mem {α σ : Type} (f : σ → α → σ) (P : σ → Prop)
    (Q : α → Prop) (hf : ∀ st a, Q a → P st → P (f st a)) :
    ∀ (l : List α) (st : σ), (∀ a ∈ l, Q a) → P st → P (l.foldl f st) := by
  intro l
  induction l with
  | nil => intro st _ hst; exact hst
  | cons a t ih =>
    intro st hQ hst
    exact ih (f st a) (fun x hx => hQ x (List.mem_cons_of_mem _ hx))
      (hf st a (hQ a (List.mem_cons_self _ _)) hst)

/-- Invariant preservation through a left fold. -/
theorem foldl_pres {α σ : Type} (f : σ → α → σ) (P : σ → Prop)
    (hf : ∀ st a, P st → P (f st a)) (l : List α) (st : σ) (h : P st) :
    P (l.foldl f st) :=
  foldl_pres_mem f P (fun _ => True) (fun st a _ => hf st a) l st
    (fun _ _ => trivial) h

/-- The pair step of the scan phase only ever touches the
`opportunities_found` counter of the state. -/
theorem scanPairStep_sameCore (now : ℚ) (symbol : String) (acc : ScanResult)
    (pair : (String × CachedBook) × (String × CachedBook)) :
    sameCore (scanPairStep now symbol acc pair).state acc.state := by
  unfold scanPairStep
  dsimp only
  repeat' split
  all_goals simp [sameCore]

/-- The symbol step of the scan phase only ever touches the counter. -/
theorem scanSymbolStep_sameCore (now : ℚ) (acc : ScanResult) (symbol : String) :
    sameCore (scanSymbolStep now acc symbol).state acc.state := by
  unfold scanSymbolStep
  split
  · exact sameCore_refl _
  · split
    · exact sameCore_refl _
    · exact foldl_pres (scanPairStep now symbol)
        (fun r => sameCore r.state acc.state)
        (fun st p hst => sameCore_trans (scanPairStep_sameCore now symbol st p) hst)
        _ _ (sameCore_refl _)

/-- The scan phase only ever touches the `opportunities_found` counter. -/
theorem scan_opportunities_sameCore (s : EngineState) (now : ℚ) :
    sameCore (scan_opportunities s now).state s := by
  unfold scan_opportunities
  exact foldl_pres (scanSymbolStep now) (fun r => sameCore r.state s)
    (fun st sym hst => sameCore_trans (scanSymbolStep_sameCore now st sym) hst)
    _ _ (sameCore_refl _)

/-- Unfolding of `failedContains` into its lookup witness. -/
theorem failedContains_iff {s : EngineState} {E S : String} :
    failedContains s E S = true ↔
      ∃ syms, alookup E s.failed_symbols = some syms ∧ S ∈ syms := by
  unfold failedContains
  cases h : alookup E s.failed_symbols with
  | none => simp
  | some syms => simp [h]

/-- The check `failedContains` only depends on the `failed_symbols` field. -/
theorem failedContains_congr {s t : EngineState}
    (h : s.failed_symbols = t.failed_symbols) (E S : String) :
    failedContains s E S = failedContains t E S := by
  unfold failedContains
  rw [h]

/-- An order-book refresh task never removes a failure marking. -/
theorem failedContains_updateOrderBook (env : FetchEnv) (now : ℚ)
    (ex sym : String) {s : EngineState} {E S : String}
    (h : failedContains s E S = true) :
    failedContains (updateOrderBook env now ex sym s).1 E S = true := by
  obtain ⟨syms, hlook, hmem⟩ := failedContains_iff.mp h
  unfold updateOrderBook
  cases hfetch : env.orderBook ex sym with
  | error e =>
    dsimp only
    refine failedContains_iff.mpr ?_
    by_cases hex : ex = E
    · subst hex
      refine ⟨_, alookup_aupsert_self _ _ _, ?_⟩
      rw [hlook]
      split
      · exact hmem
      · exact List.mem_append_left _ hmem
    · exact ⟨syms, by rw [alookup_aupsert_ne _ _ hex]; exact hlook, hmem⟩
  | ok book =>
    dsimp only
    split
    · exact h
    · exact failedContains_iff.mpr ⟨syms, hlook, hmem⟩

/-- A fee refresh task never touches the failure markings. -/
theorem failedContains_updateTradingFees (env : FetchEnv) (ex : String)
    {s : EngineState} {E S : String} (h : failedContains s E S = true) :
    failedContains (updateTradingFees env ex s).1 E S = true := by
  unfold updateTradingFees
  cases env.fees ex with
  | error e => exact h
  | ok fees =>
    dsimp only
    split
    · exact h
    · exact failedContains_iff.mpr (failedContains_iff.mp h)

/-- A full market-data refresh never removes a failure marking. -/
theorem failedContains_updateMarketData (env : FetchEnv) (now : ℚ)
    {s : EngineState} {E S : String} (h : failedContains s E S = true) :
    failedContains (updateMarketData env now s) E S = true := by
  unfold updateMarketData
  dsimp only
  by_cases hdo : s.trading_fees_cache = [] ∨ 3600 < now - s.last_fee_update
  · rw [if_pos hdo, if_pos hdo]
    exact foldl_pres _ (fun st => failedContains st E S = true)
      (fun st ex hst => failedContains_updateTradingFees env ex hst) _ _
      (foldl_pres _ (fun st => failedContains st E S = true)
        (fun st p hst => failedContains_updateOrderBook env now p.2 p.1 hst) _ _ h)
  · rw [if_neg hdo, if_neg hdo]
    exact foldl_pres _ (fun st => failedContains st E S = true)
      (fun st p hst => failedContains_updateOrderBook env now p.2 p.1 hst) _ _ h

/-- No engine operation ever removes a failure marking. -/
theorem failedContains_op {s : EngineState} {E S : String} (op : Op)
    (h : failedContains s E S = true) :
    failedContains (Op.apply s op) E S = true := by
  cases op with
  | updateMarketData env now => exact failedContains_updateMarketData env now h
  | updateOrderBook env now ex sym =>
    exact failedContains_updateOrderBook env now ex sym h
  | updateTradingFees env ex => exact failedContains_updateTradingFees env ex h
  | scan now =>
    rw [Op.apply]
    rw [failedContains_congr
      (scan_opportunities_sameCore s now).2.2.2.2.2.2.2.1]
    exact h

/-- No sequence of engine operations ever removes a failure marking. -/
theorem failedContains_runOps {s : EngineState} {E S : String}
    (ops : List Op) (h : failedContains s E S = true) :
    failedContains (runOps s ops) E S = true :=
  foldl_pres Op.apply (fun st => failedContains st E S = true)
    (fun st op hst => failedContains_op op hst) ops s h

/-- Membership in the refresh task list. -/
theorem mem_taskPairs {s : EngineState} {S E : String} :
    (S, E) ∈ taskPairs s ↔
      S ∈ s.target_symbols ∧ E ∈ s.exchanges ∧ failedContains s E S = false := by
  unfold taskPairs
  simp only [List.mem_flatMap, List.mem_map, List.mem_filter, Prod.mk.injEq]
  constructor
  · rintro ⟨sym, hsym, ex, ⟨hex, hfail⟩, rfl, rfl⟩
    exact ⟨hsym, hex, by simpa using hfail⟩
  · rintro ⟨hS, hE, hfail⟩
    exact ⟨S, hS, E, ⟨hE, by simpa using hfail⟩, rfl, rfl⟩

/-- A pair marked failed is never scheduled for refresh. -/
theorem not_mem_taskPairs {s : EngineState} {E S : String}
    (h : failedContains s E S = true) : (S, E) ∉ taskPairs s := by
  intro hmem
  have := (mem_taskPairs.mp hmem).2.2
  rw [h] at this
  exact absurd this (by simp)

/-- The lookup `cachedBook` only depends on the `order_books_cache` field. -/
theorem cachedBook_congr {s t : EngineState}
    (h : s.order_books_cache = t.order_books_cache) (symbol ex : String) :
    cachedBook s symbol ex = cachedBook t symbol ex := by
  unfold cachedBook
  rw [h]

/-- A refresh task for a different (symbol, exchange) pair leaves a cache
entry untouched. -/
theorem cachedBook_updateOrderBook_other (env : FetchEnv) (now : ℚ)
    (ex sym : String) (s : EngineState) {S' E' : String}
    (hne : ¬(sym = S' ∧ ex = E')) :
    cachedBook (updateOrderBook env now ex sym s).1 S' E' =
      cachedBook s S' E' := by
  unfold updateOrderBook
  cases env.orderBook ex sym with
  | error e => rfl
  | ok book =>
    dsimp only
    split
    · rfl
    · unfold cachedBook
      dsimp only
      by_cases hsym : sym = S'
      · subst hsym
        have hex : ex ≠ E' := fun hc => hne ⟨rfl, hc⟩
        rw [alookup_aupsert_self]
        cases hlook : alookup sym s.order_books_cache with
        | none => simp [hlook, alookup_aupsert_ne _ _ hex]
        | some inner => simp [hlook, alookup_aupsert_ne _ _ hex]
      · rw [alookup_aupsert_ne _ _ hsym]

/-- A successful refresh task installs exactly the fetched two-sided book
under its own (symbol, exchange) key. -/
theorem cachedBook_updateOrderBook_self (env : FetchEnv) (now : ℚ)
    {E' S' : String} (s : EngineState) {b : OrderBook}
    (hok : env.orderBook E' S' = .ok b) (hbids : b.bids ≠ [])
    (hasks : b.asks ≠ []) :
    cachedBook (updateOrderBook env now E' S' s).1 S' E' = some ⟨b, now⟩ := by
  unfold updateOrderBook
  rw [hok]
  dsimp only
  rw [if_neg (by simp [hbids, hasks])]
  unfold cachedBook
  dsimp only
  rw [alookup_aupsert_self]
  simp [alookup_aupsert_self]

/-- A fee refresh task leaves every cache entry untouched. -/
theorem cachedBook_updateTradingFees (env : FetchEnv) (ex : String)
    (s : EngineState) (S' E' : String) :
    cachedBook (updateTradingFees env ex s).1 S' E' = cachedBook s S' E' := by
  unfold updateTradingFees
  cases env.fees ex with
  | error e => rfl
  | ok fees =>
    dsimp only
    split
    · rfl
    · rfl

/-- Any refresh task preserves an installed entry `⟨b, now⟩` for the pair
(S', E') whose fetch returns the two-sided book `b` in this cycle. -/
theorem cachedBook_step_stable (env : FetchEnv) (now : ℚ) {S' E' : String}
    {b : OrderBook} (hok : env.orderBook E' S' = .ok b) (hbids : b.bids ≠ [])
    (hasks : b.asks ≠ []) (st : EngineState) (p : String × String)
    (hst : cachedBook st S' E' = some ⟨b, now⟩) :
    cachedBook (updateOrderBook env now p.2 p.1 st).1 S' E' = some ⟨b, now⟩ := by
  by_cases hp : p.1 = S' ∧ p.2 = E'
  · obtain ⟨h1, h2⟩ := hp
    rw [h1, h2]
    exact cachedBook_updateOrderBook_self env now st hok hbids hasks
  · rw [cachedBook_updateOrderBook_other env now p.2 p.1 st hp]
    exact hst

/-- After folding the refresh tasks of one cycle, every scheduled pair
whose fetch succeeded with a two-sided book is cached with that book. -/
theorem cachedBook_book_fold (env : FetchEnv) (now : ℚ) {S' E' : String}
    {b : OrderBook} (hok : env.orderBook E' S' = .ok b) (hbids : b.bids ≠ [])
    (hasks : b.asks ≠ []) :
    ∀ (pairs : List (String × String)) (st : EngineState),
      ((S', E') ∈ pairs ∨ cachedBook st S' E' = some ⟨b, now⟩) →
      cachedBook (pairs.foldl
        (fun st p => (updateOrderBook env now p.2 p.1 st).1) st) S' E' =
        some ⟨b, now⟩ := by
  intro pairs
  induction pairs with
  | nil =>
    intro st h
    rcases h with h | h
    · simp at h
    · exact h
  | cons p t ih =>
    intro st h
    rw [List.foldl_cons]
    rcases h with h | h
    · rcases List.mem_cons.mp h with h1 | h1
      · refine ih _ (Or.inr ?_)
        rw [← h1]
        exact cachedBook_updateOrderBook_self env now st hok hbids hasks
      · exact ih _ (Or.inl h1)
    · exact ih _ (Or.inr (cachedBook_step_stable env now hok hbids hasks st p h))

/-- After a full `_update_market_data` cycle, every scheduled pair whose
fetch succeeded with a two-sided book is cached with that book and the
cycle's timestamp — regardless of what other tasks did. -/
theorem cachedBook_updateMarketData (env : FetchEnv) (now : ℚ)
    {s : EngineState} {S' E' : String} {b : OrderBook}
    (hmem : (S', E') ∈ taskPairs s) (hok : env.orderBook E' S' = .ok b)
    (hbids : b.bids ≠ []) (hasks : b.asks ≠ []) :
    cachedBook (updateMarketData env now s) S' E' = some ⟨b, now⟩ := by
  unfold updateMarketData
  dsimp only
  by_cases hdo : s.trading_fees_cache = [] ∨ 3600 < now - s.last_fee_update
  · rw [if_pos hdo, if_pos hdo]
    refine foldl_pres _ (fun st => cachedBook st S' E' = some ⟨b, now⟩)
      (fun st ex hst => by
        show cachedBook (updateTradingFees env ex st).1 S' E' = _
        rw [cachedBook_updateTradingFees]
        exact hst) _ _ ?_
    exact cachedBook_book_fold env now hok hbids hasks _ _ (Or.inl hmem)
  · rw [if_neg hdo, if_neg hdo]
    exact cachedBook_book_fold env now hok hbids hasks _ _ (Or.inl hmem)

/-- A refresh task preserves the cache invariant: an exception leaves the
cache alone, an empty-sided book is rejected before caching, and a
two-sided book only adds a two-sided entry. -/
theorem CacheInv_updateOrderBook (env : FetchEnv) (now : ℚ) (ex sym : String)
    {s : EngineState} (h : CacheInv s) :
    CacheInv (updateOrderBook env now ex sym s).1 := by
  unfold updateOrderBook
  cases env.orderBook ex sym with
  | error e => exact h
  | ok book =>
    dsimp only
    by_cases hempty : book.bids = [] ∨ book.asks = []
    · rw [if_pos hempty]
      exact h
    · rw [if_neg hempty]
      push_neg at hempty
      intro se hse
      rcases mem_aupsert hse with rfl | hmem
      · intro ee hee
        rcases mem_aupsert hee with rfl | hee'
        · exact hempty
        · cases hl : alookup sym s.order_books_cache with
          | none => rw [hl] at hee'; simp at hee'
          | some inner =>
            rw [hl] at hee'
            exact h (sym, inner) (alookup_mem hl) ee hee'
      · exact h se hmem

/-- A fee refresh task preserves the cache invariant. -/
theorem CacheInv_updateTradingFees (env : FetchEnv) (ex : String)
    {s : EngineState} (h : CacheInv s) :
    CacheInv (updateTradingFees env ex s).1 := by
  unfold updateTradingFees
  cases env.fees ex with
  | error e => exact h
  | ok fees =>
    dsimp only
    split
    · exact h
    · exact h

/-- A full market-data refresh preserves the cache invariant. -/
theorem CacheInv_updateMarketData (env : FetchEnv) (now : ℚ)
    {s : EngineState} (h : CacheInv s) :
    CacheInv (updateMarketData env now s) := by
  unfold updateMarketData
  dsimp only
  by_cases hdo : s.trading_fees_cache = [] ∨ 3600 < now - s.last_fee_update
  · rw [if_pos hdo, if_pos hdo]
    refine foldl_pres _ CacheInv
      (fun st ex hst => CacheInv_updateTradingFees env ex hst) _ _ ?_
    exact foldl_pres _ CacheInv
      (fun st p hst => CacheInv_updateOrderBook env now p.2 p.1 hst) _ _ h
  · rw [if_neg hdo, if_neg hdo]
    exact foldl_pres _ CacheInv
      (fun st p hst => CacheInv_updateOrderBook env now p.2 p.1 hst) _ _ h

/-- The scan phase preserves the cache invariant (it does not write the
cache at all). -/
theorem CacheInv_scan (now : ℚ) {s : EngineState} (h : CacheInv s) :
    CacheInv (scan_opportunities s now).state := by
  unfold CacheInv
  rw [(scan_opportunities_sameCore s now).2.2.2.2.2.1]
  exact h

/-- Every engine operation preserves the cache invariant. -/
theorem CacheInv_op {s : EngineState} (op : Op) (h : CacheInv s) :
    CacheInv (Op.apply s op) := by
  cases op with
  | updateMarketData env now => exact CacheInv_updateMarketData env now h
  | updateOrderBook env now ex sym => exact CacheInv_updateOrderBook env now ex sym h
  | updateTradingFees env ex => exact CacheInv_updateTradingFees env ex h
  | scan now => exact CacheInv_scan now h

/-- Every sequence of engine operations preserves the cache invariant. -/
theorem CacheInv_runOps {s : EngineState} (ops : List Op) (h : CacheInv s) :
    CacheInv (runOps s ops) :=
  foldl_pres Op.apply CacheInv (fun st op hst => CacheInv_op op hst) ops s h

/-- A freshly constructed engine has an empty cache, which trivially
satisfies the invariant. -/
theorem CacheInv_initState (exchanges : List String)
    (cap minp maxs : ℚ) (syms : List String) :
    CacheInv (initState exchanges cap minp maxs syms) := by
  intro se hse
  simp [initState] at hse

/-- Both components of an ordered index pair come from the list. -/
theorem orderedPairs_mem {α : Type} {p : α × α} :
    ∀ {l : List α}, p ∈ orderedPairs l → p.1 ∈ l ∧ p.2 ∈ l := by
  intro l
  induction l with
  | nil => intro h; simp [orderedPairs] at h
  | cons x t ih =>
    intro h
    rcases List.mem_append.mp h with h1 | h1
    · obtain ⟨y, hy, rfl⟩ := List.mem_map.mp h1
      exact ⟨List.mem_cons_self _ _, List.mem_cons_of_mem _ hy⟩
    · obtain ⟨ha, hb⟩ := ih h1
      exact ⟨List.mem_cons_of_mem _ ha, List.mem_cons_of_mem _ hb⟩

/-- The pair step never raises when the candidate buy book has bids and the
candidate sell book has asks (the sides read unguarded in the
reverse-direction branch); pairs with an empty consulted side in the normal
direction are skipped, not errors. -/
theorem scanPairStep_ok (now : ℚ) (symbol : String) (acc : ScanResult)
    (pair : (String × CachedBook) × (String × CachedBook)) (hok : acc.ok = true)
    (h1b : pair.1.2.data.bids ≠ []) (h2a : pair.2.2.data.asks ≠ []) :
    (scanPairStep now symbol acc pair).ok = true := by
  obtain ⟨⟨bN, bB⟩, sN, sB⟩ := pair
  unfold scanPairStep
  dsimp only at h1b h2a ⊢
  rw [hok]
  simp only [Bool.not_true, Bool.false_eq_true, if_false]
  cases hA : bB.data.asks with
  | nil => cases sB.data.bids <;> exact hok
  | cons bHead bTail =>
    obtain ⟨bp, bq⟩ := bHead
    cases hB : sB.data.bids with
    | nil => exact hok
    | cons sHead sTail =>
      obtain ⟨sp, sq⟩ := sHead
      dsimp only
      by_cases hlt : bp < sp
      · rw [if_pos hlt]
        dsimp only
        split
        · exact hok
        · split <;> simp [hok]
      · rw [if_neg hlt]
        cases hSA : sB.data.asks with
        | nil => exact absurd hSA h2a
        | cons rHead rTail =>
          obtain ⟨rp, rq⟩ := rHead
          cases hBB : bB.data.bids with
          | nil => exact absurd hBB h1b
          | cons vHead vTail =>
            obtain ⟨vp, vq⟩ := vHead
            dsimp only
            by_cases hrev : rp < vp
            · rw [if_pos hrev]
              dsimp only
              split
              · exact hok
              · split <;> simp [hok]
            · rw [if_neg hrev]
              simp [hok]

/-- The symbol step preserves "no exception so far" and the (unchanged)
cache, provided every cached book is two-sided. -/
theorem scanSymbolStep_ok (now : ℚ)
    (C : List (String × List (String × CachedBook))) (hC : CacheInvOn C)
    (acc : ScanResult) (symbol : String)
    (h : acc.ok = true ∧ acc.state.order_books_cache = C) :
    (scanSymbolStep now acc symbol).ok = true ∧
      (scanSymbolStep now acc symbol).state.order_books_cache = C := by
  obtain ⟨hok, hcache⟩ := h
  unfold scanSymbolStep
  rw [hok]
  simp only [Bool.not_true, Bool.false_eq_true, if_false]
  cases hl : alookup symbol acc.state.order_books_cache with
  | none => exact ⟨hok, hcache⟩
  | some books =>
    have hbooks : ∀ ee ∈ books, ee.2.data.bids ≠ [] ∧ ee.2.data.asks ≠ [] := by
      have hmem : (symbol, books) ∈ C := by
        rw [← hcache]
        exact alookup_mem hl
      exact fun ee hee => hC (symbol, books) hmem ee hee
    refine foldl_pres_mem (scanPairStep now symbol)
      (fun r => r.ok = true ∧ r.state.order_books_cache = C)
      (fun p => p.1 ∈ books ∧ p.2 ∈ books)
      (fun st p hQ hst => ?_) (orderedPairs books) acc
      (fun p hp => orderedPairs_mem hp) ⟨hok, hcache⟩
    refine ⟨scanPairStep_ok now symbol st p hst.1
      (hbooks p.1 hQ.1).1 (hbooks p.2 hQ.2).2, ?_⟩
    rw [(scanPairStep_sameCore now symbol st p).2.2.2.2.2.1]
    exact hst.2

/-- On a cache satisfying the two-sided invariant, the scan never raises. -/
theorem scan_ok_of_CacheInv (s : EngineState) (now : ℚ) (h : CacheInv s) :
    (scan_opportunities s now).ok = true := by
  unfold scan_opportunities
  exact (foldl_pres (scanSymbolStep now)
    (fun r => r.ok = true ∧ r.state.order_books_cache = s.order_books_cache)
    (fun st sym hst => scanSymbolStep_ok now s.order_books_cache h st sym hst)
    s.target_symbols ⟨s, [], true⟩ ⟨rfl, rfl⟩).1

/-! ## Claim theorems -/

/-- Claim C3, counterexample: On a book whose asks are not sorted ascending
(`[[100, 1], [10, 1]]`, positive sizes), `estimate_slippage` is *not*
monotone in the amount: with `0 < 1 < 2`, the slippage for amount `2`
(namely `-9/20`) is strictly below the slippage for amount `1` (namely
`0`), refuting the claim as stated for arbitrary order books. -/
theorem estimate_slippage_not_monotone_unsorted :
    (0 : ℚ) < 1 ∧ (1 : ℚ) < 2 ∧
      estimate_slippage bkUnsortedTen 2 "buy" <
        estimate_slippage bkUnsortedTen 1 "buy" := by
  refine ⟨by norm_num, by norm_num, ?_⟩
  have h1 : estimate_slippage bkUnsortedTen 1 "buy" = 0 := by
    norm_num [estimate_slippage, bkUnsortedTen, fillWalk, headPrice, min_def]
  have h2 : estimate_slippage bkUnsortedTen 2 "buy" = -9/20 := by
    norm_num [estimate_slippage, bkUnsortedTen, fillWalk, headPrice, min_def]
  rw [h1, h2]
  norm_num

/-- Claim C3, amended: For every order book whose sides satisfy the spec's
`OrderBook` invariant (asks ascending, bids descending, best price first,
with nonnegative sizes), both sides `'buy'` and `'sell'` (and any other
side string, which the source treats as `'sell'`), and all amounts
`0 < amount1 < amount2`:
`estimate_slippage(book, amount2, side) >= estimate_slippage(book, amount1, side)`. -/
theorem estimate_slippage_monotone (book : OrderBook) (side : String)
    {a1 a2 : ℚ} (hwf : book.wellFormed) (h1 : 0 < a1) (h2 : a1 < a2) :
    estimate_slippage book a1 side ≤ estimate_slippage book a2 side :=
  estimate_slippage_mono_of_wellFormed book hwf side h1 h2.le

/-- Witness for the amended C3 at a concrete sorted book and amounts. -/
theorem estimate_slippage_monotone_witness :
    estimate_slippage bkWellFormed 1 "buy" ≤
      estimate_slippage bkWellFormed 2 "buy" :=
  estimate_slippage_monotone bkWellFormed "buy"
    (by unfold OrderBook.wellFormed asksSorted bidsSorted sizesNonneg bkWellFormed
        decide)
    (by norm_num) (by norm_num)

/-- Claim C7, counterexample: On a book whose asks are not sorted ascending
(`[[100, 1], [50, 1]]`, positive sizes), `estimate_slippage` returns a
strictly negative value (`-1/4` for amount `2`): the source has no clamp of
zero-or-negative results, refuting the claim as stated for arbitrary order
books. -/
theorem estimate_slippage_negative_unsorted :
    estimate_slippage bkUnsortedFifty 2 "buy" < 0 := by
  have h : estimate_slippage bkUnsortedFifty 2 "buy" = -1/4 := by
    norm_num [estimate_slippage, bkUnsortedFifty, fillWalk, headPrice, min_def]
  rw [h]
  norm_num

/-- Claim C7, amended: For every order book satisfying the spec's
`OrderBook` invariant (sorted sides, nonnegative sizes), every amount and
both sides, `estimate_slippage` returns a value `>= 0`.  No clamping is
performed by the code; on such books none is needed. -/
theorem estimate_slippage_nonneg (book : OrderBook) (side : String)
    (amount : ℚ) (hwf : book.wellFormed) :
    0 ≤ estimate_slippage book amount side :=
  estimate_slippage_nonneg_of_wellFormed book hwf amount side

/-- Witness for the amended C7 at a concrete sorted book. -/
theorem estimate_slippage_nonneg_witness :
    0 ≤ estimate_slippage bkWellFormed 5 "sell" :=
  estimate_slippage_nonneg bkWellFormed "sell" 5
    (by unfold OrderBook.wellFormed asksSorted bidsSorted sizesNonneg bkWellFormed
        decide)

/-- Claim C9: Scanning never writes the market-data caches: for every engine
state, `scan_opportunities` (together with the `calculate_potential_profit`
and `estimate_slippage` calls it makes, which are pure functions of the
state) leaves `order_books_cache`, `trading_fees_cache` and
`failed_symbols` unchanged — even when the scan raises part-way. -/
theorem scan_leaves_caches_unchanged (s : EngineState) (now : ℚ) :
    (scan_opportunities s now).state.order_books_cache = s.order_books_cache ∧
    (scan_opportunities s now).state.trading_fees_cache = s.trading_fees_cache ∧
    (scan_opportunities s now).state.failed_symbols = s.failed_symbols := by
  obtain ⟨-, -, -, -, -, h6, h7, h8, -⟩ := scan_opportunities_sameCore s now
  exact ⟨h6, h7, h8⟩

/-- Claim C4, counterexample: `scan_opportunities` *can* raise because of an
empty order-book side: with exchange `A` quoting ask `100`/bid `99` and
exchange `B` holding bid `90` and an *empty* asks list, the normal
direction is unfavorable and the source evaluates
`sell_book['asks'][0][0]` (engine.py line 497) on the empty list — an
`IndexError` (`ok = false` in the model). -/
theorem scan_opportunities_raises_on_empty_side :
    cachedBook stReverseCrash "AAA/USDT" "B" =
      some ⟨⟨"AAA/USDT", [(90, 1)], [], 0⟩, 0⟩ ∧
    (scan_opportunities stReverseCrash 0).ok = false := by
  constructor
  · decide
  · decide

/-- Claim C4, amended: For every cache state in which every cached order
book has non-empty bids and asks — the invariant every reachable cache
satisfies (C10), since the refresh step never caches a one-sided book —
`scan_opportunities` raises no exception: pairs with no favorable direction
are skipped and scanning continues over the remaining pairs. -/
theorem scan_opportunities_no_raise (s : EngineState) (now : ℚ)
    (h : CacheInv s) : (scan_opportunities s now).ok = true :=
  scan_ok_of_CacheInv s now h

/-- Witness for the amended C4 at a concrete two-sided cache. -/
theorem scan_opportunities_no_raise_witness :
    (scan_opportunities stTwoSided 0).ok = true :=
  scan_opportunities_no_raise stTwoSided 0
    (by unfold CacheInv CacheInvOn; decide)

/-- Claim C10: Every reachable engine state (any operation sequence from a
freshly constructed engine) keeps only two-sided books in
`order_books_cache`, because `_async_update_order_book` returns `False`
without caching — and without marking the pair failed, so it is retried
next cycle — whenever the fetched book has an empty side, and no other
operation writes the cache. -/
theorem cache_books_always_two_sided :
    (∀ (exchanges : List String) (cap minp maxs : ℚ) (syms : List String)
        (ops : List Op),
      CacheInv (runOps (initState exchanges cap minp maxs syms) ops)) ∧
    (∀ (s : EngineState) (env : FetchEnv) (now : ℚ) (ex sym : String)
        (book : OrderBook), env.orderBook ex sym = .ok book →
      book.bids = [] ∨ book.asks = [] →
      updateOrderBook env now ex sym s = (s, false)) := by
  constructor
  · intro exchanges cap minp maxs syms ops
    exact CacheInv_runOps ops (CacheInv_initState exchanges cap minp maxs syms)
  · intro s env now ex sym book hok hempty
    unfold updateOrderBook
    rw [hok]
    dsimp only
    rw [if_pos hempty]

/-- Witness for C10: a concrete run whose only fetch returns a book with
empty bids, which is neither cached nor marked failed. -/
theorem cache_books_always_two_sided_witness :
    CacheInv (runOps (initState ["A"] 1 1 1 ["AAA/USDT"])
      [Op.updateOrderBook envEmptyBook 0 "A" "AAA/USDT"]) ∧
    updateOrderBook envEmptyBook 0 "A" "AAA/USDT" stFresh = (stFresh, false) :=
  ⟨cache_books_always_two_sided.1 ["A"] 1 1 1 ["AAA/USDT"]
      [Op.updateOrderBook envEmptyBook 0 "A" "AAA/USDT"],
    cache_books_always_two_sided.2 stFresh envEmptyBook 0 "A" "AAA/USDT"
      ⟨"AAA/USDT", [], [(100, 1)], 0⟩ rfl (Or.inl rfl)⟩

/-- Claim C6, counterexample: The Binance connector has no missing-
credential fallback: constructed without credentials, `get_trading_fees`
sends the request anyway (unsigned) and propagates the resulting exception
— refuting "every exchange connector … never raises". -/
theorem binance_fee_fetch_propagates_error :
    binance_get_trading_fees none none none (.error "Exception") =
      .error "Exception" := rfl

/-- Claim C6, amended: The KuCoin and CCXT connectors constructed without
API credentials return a non-empty mapping of default fee entries
(maker `0.001`, taker `0.001`) and never raise: for the requested symbol
when one is given, else for the configured default symbols `BTC/USDT` and
`ETH/USDT`.  (KuCoin returns the defaults without any network call; CCXT
returns them whenever the underlying ccxt calls raise, as they do without
credentials.  The Binance connector has no such fallback.) -/
theorem fee_fallback_without_credentials :
    (∀ (sym : String) (authed : Except String FeeMap),
      kucoin_get_trading_fees none none none (some sym) authed =
        .ok [(sym, default_fee)]) ∧
    (∀ authed : Except String FeeMap,
      kucoin_get_trading_fees none none none none authed =
        .ok [("BTC/USDT", default_fee), ("ETH/USDT", default_fee)]) ∧
    (∀ (sym err : String),
      ccxt_get_trading_fees (some sym) (.error err) =
        .ok [(sym, default_fee)]) ∧
    (∀ err : String, ccxt_get_trading_fees none (.error err) =
      .ok [("BTC/USDT", default_fee), ("ETH/USDT", default_fee)]) :=
  ⟨fun _ _ => rfl, fun _ => rfl, fun _ _ => rfl, fun _ => rfl⟩

/-- Claim C1: Whenever both books are cached, the buy book has a non-empty
asks list and the sell book a non-empty bids list,
`calculate_potential_profit(symbol, buyExchange, sellExchange, amount)`
returns exactly `(profit, profit/amount*100, buySlippage, sellSlippage)`
with `bestAsk`/`bestBid` the first ask/bid prices,
`buySlippage = estimate_slippage(buyBook, amount/bestAsk, 'buy')`,
`sellSlippage = estimate_slippage(sellBook, amount/bestAsk, 'sell')`,
the cached taker rate for the buy leg and maker rate for the sell leg
(default `0.001` when absent),
`coinsBought = (amount - amount*buyFeeRate) / (bestAsk*(1+buySlippage))`, and
`profit = coinsBought * (bestBid*(1-sellSlippage)) * (1-sellFeeRate) - amount`. -/
theorem calculate_potential_profit_formula (s : EngineState)
    (symbol buy_exchange sell_exchange : String) (amount : ℚ)
    (buyEntry sellEntry : CachedBook)
    (hbuy : cachedBook s symbol buy_exchange = some buyEntry)
    (hsell : cachedBook s symbol sell_exchange = some sellEntry)
    (bestAsk askSize : ℚ) (askTail : List Level)
    (hasks : buyEntry.data.asks = (bestAsk, askSize) :: askTail)
    (bestBid bidSize : ℚ) (bidTail : List Level)
    (hbids : sellEntry.data.bids = (bestBid, bidSize) :: bidTail) :
    calculate_potential_profit s symbol buy_exchange sell_exchange amount =
      (let buySlippage := estimate_slippage buyEntry.data (amount / bestAsk) "buy"
       let sellSlippage := estimate_slippage sellEntry.data (amount / bestAsk) "sell"
       let buyFeeRate := takerRate s buy_exchange symbol
       let sellFeeRate := makerRate s sell_exchange symbol
       let coinsBought := (amount - amount * buyFeeRate) / (bestAsk * (1 + buySlippage))
       let profit := coinsBought * (bestBid * (1 - sellSlippage)) * (1 - sellFeeRate)
         - amount
       (profit, profit / amount * 100, buySlippage, sellSlippage)) := by
  unfold calculate_potential_profit
  rw [hbuy, hsell]
  dsimp only
  rw [hasks, hbids]
  dsimp only
  simp only [Prod.mk.injEq, and_true]
  exact ⟨by ring, by ring⟩

/-- Witness for C1 at a concrete cache, instantiating the formula. -/
theorem calculate_potential_profit_formula_witness :
    calculate_potential_profit stOneSided "AAA/USDT" "A" "B" 100 =
      (let buySlippage := estimate_slippage bkBuyNoBids (100 / 100) "buy"
       let sellSlippage := estimate_slippage bkSellNoAsks (100 / 100) "sell"
       let buyFeeRate := takerRate stOneSided "A" "AAA/USDT"
       let sellFeeRate := makerRate stOneSided "B" "AAA/USDT"
       let coinsBought := (100 - 100 * buyFeeRate) / (100 * (1 + buySlippage))
       let profit := coinsBought * (110 * (1 - sellSlippage)) * (1 - sellFeeRate)
         - 100
       (profit, profit / 100 * 100, buySlippage, sellSlippage)) :=
  calculate_potential_profit_formula stOneSided "AAA/USDT" "A" "B" 100
    ⟨bkBuyNoBids, 0⟩ ⟨bkSellNoAsks, 0⟩ rfl rfl 100 1 [] rfl 110 1 [] rfl

/-- Claim C2, counterexample: A one-sided book does *not* force the all-zero
result: with the buy book's bids empty and the sell book's asks empty (but
the consulted sides liquid), `calculate_potential_profit` computes a
non-zero profit — the source only checks the buy book's asks and the sell
book's bids (engine.py line 395), not "an empty bids list or an empty asks
list" of either book. -/
theorem calculate_potential_profit_offside_nonzero :
    bkBuyNoBids.bids = [] ∧ bkSellNoAsks.asks = [] ∧
    cachedBook stOneSided "AAA/USDT" "A" = some ⟨bkBuyNoBids, 0⟩ ∧
    cachedBook stOneSided "AAA/USDT" "B" = some ⟨bkSellNoAsks, 0⟩ ∧
    calculate_potential_profit stOneSided "AAA/USDT" "A" "B" 100 =
      (978011 / 100000, 978011 / 100000, 0, 0) ∧
    (978011 / 100000 : ℚ) ≠ 0 := by
  refine ⟨rfl, rfl, rfl, rfl, ?_, by norm_num⟩
  have hs1 : estimate_slippage bkBuyNoBids (100 / 100) "buy" = 0 := by
    norm_num [estimate_slippage, bkBuyNoBids, fillWalk, headPrice, min_def]
  have hs2 : estimate_slippage bkSellNoAsks (100 / 100) "sell" = 0 := by
    norm_num [estimate_slippage, bkSellNoAsks, fillWalk, headPrice, min_def]
  unfold calculate_potential_profit
  rw [show cachedBook stOneSided "AAA/USDT" "A" = some ⟨bkBuyNoBids, 0⟩ from rfl,
    show cachedBook stOneSided "AAA/USDT" "B" = some ⟨bkSellNoAsks, 0⟩ from rfl]
  dsimp only
  rw [show bkBuyNoBids.asks = [((100 : ℚ), (1 : ℚ))] from rfl,
    show bkSellNoAsks.bids = [((110 : ℚ), (1 : ℚ))] from rfl]
  dsimp only
  rw [hs1, hs2,
    show takerRate stOneSided "A" "AAA/USDT" = 1/1000 from rfl,
    show makerRate stOneSided "B" "AAA/USDT" = 1/1000 from rfl]
  norm_num

/-- Claim C2, amended: `calculate_potential_profit` returns `(0, 0, 0, 0)`
— raising no exception, since these paths index no list and divide by
nothing — whenever either book is missing from the cache, or the buy book
has an empty *asks* list, or the sell book has an empty *bids* list (the
sides the source consults). -/
theorem calculate_potential_profit_zero_of_missing (s : EngineState)
    (symbol buy_exchange sell_exchange : String) (amount : ℚ)
    (h : cachedBook s symbol buy_exchange = none ∨
      cachedBook s symbol sell_exchange = none ∨
      (∃ e, cachedBook s symbol buy_exchange = some e ∧ e.data.asks = []) ∨
      (∃ e, cachedBook s symbol sell_exchange = some e ∧ e.data.bids = [])) :
    calculate_potential_profit s symbol buy_exchange sell_exchange amount =
      (0, 0, 0, 0) := by
  unfold calculate_potential_profit
  rcases h with h | h | ⟨e, he, hempty⟩ | ⟨e, he, hempty⟩
  · rw [h]
  · rw [h]
    cases cachedBook s symbol buy_exchange <;> rfl
  · rw [he]
    cases hs : cachedBook s symbol sell_exchange with
    | none => rfl
    | some e2 =>
      dsimp only
      rw [hempty]
  · rw [he]
    cases hb : cachedBook s symbol buy_exchange with
    | none => rfl
    | some e1 =>
      dsimp only
      rw [hempty]
      cases ha : e1.data.asks with
      | nil => rfl
      | cons hd tl => cases hd; rfl

/-- Witness for the amended C2: an empty cache yields the all-zero tuple. -/
theorem calculate_potential_profit_zero_of_missing_witness :
    calculate_potential_profit stFresh "AAA/USDT" "A" "B" 100 = (0, 0, 0, 0) :=
  calculate_potential_profit_zero_of_missing stFresh "AAA/USDT" "A" "B" 100
    (Or.inl rfl)

/-- Claim C5: Failure isolation of the refresh cycle.  When fetching symbol
`S` on exchange `E` raises: (1) the refresh task returns `False` (the
exception does not propagate) and `S` is recorded in `failed_symbols[E]`;
(2) once recorded, no sequence of engine operations ever clears the
marking, and every subsequent `_update_market_data` task list excludes
`(S, E)`; (3) in the same cycle, every other scheduled pair whose fetch
returns a two-sided book still ends up cached with that book — one pair's
failure affects no other pair. -/
theorem refresh_failure_isolation (s : EngineState) (env : FetchEnv)
    (now : ℚ) (E S : String) (hfail : env.orderBook E S = .error ()) :
    ((updateOrderBook env now E S s).2 = false ∧
      failedContains (updateOrderBook env now E S s).1 E S = true) ∧
    (∀ t : EngineState, failedContains t E S = true → ∀ ops : List Op,
      failedContains (runOps t ops) E S = true ∧
        (S, E) ∉ taskPairs (runOps t ops)) ∧
    (∀ (S' E' : String) (b : OrderBook), (S', E') ∈ taskPairs s →
      env.orderBook E' S' = .ok b → b.bids ≠ [] → b.asks ≠ [] →
      cachedBook (updateMarketData env now s) S' E' = some ⟨b, now⟩) := by
  refine ⟨⟨?_, ?_⟩, ?_, ?_⟩
  · unfold updateOrderBook
    rw [hfail]
  · unfold updateOrderBook
    rw [hfail]
    dsimp only
    refine failedContains_iff.mpr ⟨_, alookup_aupsert_self _ _ _, ?_⟩
    split
    · assumption
    · exact List.mem_append_right _ (List.mem_singleton_self S)
  · intro t ht ops
    exact ⟨failedContains_runOps ops ht,
      not_mem_taskPairs (failedContains_runOps ops ht)⟩
  · intro S' E' b hmem hok hbids hasks
    exact cachedBook_updateMarketData env now hmem hok hbids hasks

/-- Witness for C5: exchange `B` fails on `AAA/USDT`, the failure is
recorded, survives a scan, keeps the pair out of the next task list, and
exchange `A`'s book for the same symbol is still cached in the same
cycle. -/
theorem refresh_failure_isolation_witness :
    ((updateOrderBook envPartialFailure 7 "B" "AAA/USDT" stFresh).2 = false ∧
      failedContains (updateOrderBook envPartialFailure 7 "B" "AAA/USDT"
        stFresh).1 "B" "AAA/USDT" = true) ∧
    (failedContains (runOps (updateOrderBook envPartialFailure 7 "B"
        "AAA/USDT" stFresh).1 [Op.scan 0]) "B" "AAA/USDT" = true ∧
      ("AAA/USDT", "B") ∉ taskPairs (runOps (updateOrderBook envPartialFailure
        7 "B" "AAA/USDT" stFresh).1 [Op.scan 0])) ∧
    cachedBook (updateMarketData envPartialFailure 7 stFresh) "AAA/USDT" "A" =
      some ⟨{ bkWellFormed with symbol := "AAA/USDT" }, 7⟩ := by
  have h := refresh_failure_isolation stFresh envPartialFailure 7 "B"
    "AAA/USDT" rfl
  exact ⟨h.1, h.2.1 _ h.1.2 [Op.scan 0],
    h.2.2 "AAA/USDT" "A" _ (by decide) rfl (by decide) (by decide)⟩

theorem except_bind_ok {ε α β : Type} (a : α) (f : α → Except ε β) :
    (Except.ok a >>= f) = f a := rfl

theorem except_bind_error {ε α β : Type} (e : ε) (f : α → Except ε β) :
    ((Except.error e : Except ε α) >>= f) = Except.error e := rfl

theorem pyGet_obj (fields : List (String × Json)) (k : String) (d : Json) :
    pyGet (.obj fields) k d = .ok ((alookup k fields).getD d) := rfl

theorem isOkFloat_iff {j : Json} : isOkFloat j = true ↔ ∃ q, pyFloat j = .ok q := by
  unfold isOkFloat
  cases h : pyFloat j <;> simp

/-- A monadic fold over `Except` succeeds when every step does. -/
theorem foldlM_ok {α β : Type} (step : β → α → Except String β) :
    ∀ (l : List α) (init : β),
      (∀ a ∈ l, ∀ acc, ∃ out, step acc a = .ok out) →
      ∃ out, l.foldlM step init = .ok out := by
  intro l
  induction l with
  | nil => intro init _; exact ⟨init, rfl⟩
  | cons a t ih =>
    intro init h
    obtain ⟨o, ho⟩ := h a (List.mem_cons_self _ _) init
    obtain ⟨out, hout⟩ := ih o (fun x hx => h x (List.mem_cons_of_mem _ hx))
    refine ⟨out, ?_⟩
    rw [List.foldlM_cons, ho, except_bind_ok]
    exact hout

/-- The exchange-info loop body succeeds on every processable entry. -/
theorem kucoinInfoStep_ok {e : Json} (he : infoEntryOK e = true)
    (acc : List SymbolInfo) : ∃ out, kucoinInfoStep acc e = .ok out := by
  cases e with
  | obj fields =>
    by_cases htr : pyTruthy ((alookup "enableTrading" fields).getD Json.null) = true
    · have he' := he
      simp only [infoEntryOK] at he'
      rw [if_pos htr] at he'
      simp only [Bool.and_eq_true] at he'
      obtain ⟨⟨⟨hbase, hquote⟩, hpinc⟩, hbms⟩ := he'
      obtain ⟨vb, hvb⟩ := Option.isSome_iff_exists.mp hbase
      obtain ⟨vq, hvq⟩ := Option.isSome_iff_exists.mp hquote
      obtain ⟨q1, hq1⟩ := isOkFloat_iff.mp hpinc
      obtain ⟨q2, hq2⟩ := isOkFloat_iff.mp hbms
      have hve : ∃ ve, alookup "enableTrading" fields = some ve := by
        cases hl : alookup "enableTrading" fields with
        | none => rw [hl] at htr; simp [pyTruthy] at htr
        | some ve => exact ⟨ve, rfl⟩
      obtain ⟨ve, hve⟩ := hve
      cases hstep : kucoinInfoStep acc (.obj fields) with
      | ok out => exact ⟨out, rfl⟩
      | error err =>
        exfalso
        unfold kucoinInfoStep at hstep
        rw [pyGet_obj, except_bind_ok, if_pos htr] at hstep
        simp only [pyIndex, hvb, hvq, hve, except_bind_ok, pyGet_obj] at hstep
        rw [hq1, except_bind_ok, hq2, except_bind_ok] at hstep
        simp [pure, Except.pure] at hstep
    · cases hstep : kucoinInfoStep acc (.obj fields) with
      | ok out => exact ⟨out, rfl⟩
      | error err =>
        exfalso
        unfold kucoinInfoStep at hstep
        rw [pyGet_obj, except_bind_ok, if_neg htr] at hstep
        simp [pure, Except.pure] at hstep
  | null => simp [infoEntryOK] at he
  | bool b => simp [infoEntryOK] at he
  | num q => simp [infoEntryOK] at he
  | str s => simp [infoEntryOK] at he
  | arr items => simp [infoEntryOK] at he

/-- The balance loop body succeeds on every processable entry. -/
theorem kucoinBalanceStep_ok {e : Json} (he : balEntryOK e = true)
    (acc : List (Json × BalanceEntry)) :
    ∃ out, kucoinBalanceStep acc e = .ok out := by
  cases e with
  | obj fields =>
    have he' := he
    simp only [balEntryOK, Bool.and_eq_true] at he'
    obtain ⟨⟨⟨hcur, hav⟩, hho⟩, hba⟩ := he'
    have hcur' : ∃ v, alookup "currency" fields = some v ∧
        pyHashable v = true := by
      cases hl : alookup "currency" fields with
      | none => rw [hl] at hcur; simp at hcur
      | some v => rw [hl] at hcur; exact ⟨v, rfl, hcur⟩
    obtain ⟨vc, hvc, hhash⟩ := hcur'
    have hokv : ∀ (k : String), (match alookup k fields with
        | some v => isOkFloat v
        | none => false) = true →
        ∃ v q, alookup k fields = some v ∧ pyFloat v = .ok q := by
      intro k hk
      cases hl : alookup k fields with
      | none => rw [hl] at hk; simp at hk
      | some v =>
        rw [hl] at hk
        obtain ⟨q, hq⟩ := isOkFloat_iff.mp hk
        exact ⟨v, q, rfl, hq⟩
    obtain ⟨va, qa, hva, hqa⟩ := hokv "available" hav
    obtain ⟨vh, qh, hvh, hqh⟩ := hokv "holds" hho
    obtain ⟨vb, qb, hvb, hqb⟩ := hokv "balance" hba
    cases hstep : kucoinBalanceStep acc (.obj fields) with
    | ok out => exact ⟨out, rfl⟩
    | error err =>
      exfalso
      unfold kucoinBalanceStep at hstep
      simp only [pyIndex, hvc, hva, hvh, hvb, except_bind_ok] at hstep
      rw [hqa, except_bind_ok, hqh, except_bind_ok, hqb, except_bind_ok,
        if_pos hhash] at hstep
      simp [pure, Except.pure] at hstep
  | null => simp [balEntryOK] at he
  | bool b => simp [balEntryOK] at he
  | num q => simp [balEntryOK] at he
  | str s => simp [balEntryOK] at he
  | arr items => simp [balEntryOK] at he

/-- Claim C8, counterexample: A normalizer *does* raise on missing data: an
exchange-info entry with `enableTrading` true but no `baseCurrency` field
makes `normalize_exchange_info` raise `KeyError`
(kucoin_normalizer.py line 12 indexes `symbol_info['baseCurrency']`
directly) instead of substituting a default. -/
theorem normalize_exchange_info_missing_required_raises :
    normalize_exchange_info rawInfoMissingBase = .error "KeyError" := rfl

/-- Claim C8, amended: The KuCoin normalizers substitute zero or an empty
sequence for missing *optional* data and return a canonical result without
raising: a missing `data` key yields an empty symbols/balance list; an
enabled entry carrying only the required identity fields gets zero
`min_price`/`min_qty` and the default precision `1`; and both cited
normalizer methods succeed on every response whose entries carry their
required fields (`baseCurrency`/`quoteCurrency` for enabled symbols;
`currency`/`available`/`holds`/`balance` for accounts) with convertible
numeric values and a hashable currency key — but entries missing a
required field raise `KeyError` (see the counterexample), and an account
whose `currency` value is unhashable (a list or a dict) raises
`TypeError` at the `result[currency]` assignment. -/
theorem normalizer_missing_field_defaults :
    (∀ fields : List (String × Json), alookup "data" fields = none →
      normalize_exchange_info (.obj fields) =
        .ok ⟨"KUCOIN", [], (alookup "time" fields).getD Json.null⟩) ∧
    (∀ fields : List (String × Json), alookup "data" fields = none →
      normalize_balance (.obj fields) = .ok []) ∧
    (∀ b q : String,
      normalize_exchange_info (.obj [("data", .arr [.obj
        [("enableTrading", .bool true), ("baseCurrency", .str b),
         ("quoteCurrency", .str q)]])]) =
      .ok ⟨"KUCOIN", [⟨b ++ "/" ++ q, "TRADING", b, q, 0, 0, 1, 1⟩],
        Json.null⟩) ∧
    (∀ entries : List Json, (∀ e ∈ entries, infoEntryOK e = true) →
      ∃ out, normalize_exchange_info (.obj [("data", .arr entries)]) =
        .ok out) ∧
    (∀ entries : List Json, (∀ e ∈ entries, balEntryOK e = true) →
      ∃ out, normalize_balance (.obj [("data", .arr entries)]) = .ok out) ∧
    normalize_balance (.obj [("data", .arr [.obj
      [("currency", .arr []), ("available", .num 0), ("holds", .num 0),
       ("balance", .num 0)]])]) = .error "TypeError" := by
  refine ⟨?_, ?_, ?_, ?_, ?_, rfl⟩
  · intro fields h
    unfold normalize_exchange_info
    rw [pyGet_obj, h, except_bind_ok]
    rfl
  · intro fields h
    unfold normalize_balance
    rw [pyGet_obj, h, except_bind_ok]
    rfl
  · intro b q
    unfold normalize_exchange_info
    rw [show pyGet (.obj [("data", .arr [.obj
        [("enableTrading", .bool true), ("baseCurrency", .str b),
         ("quoteCurrency", .str q)]])]) "data" (.arr []) =
      .ok (.arr [.obj [("enableTrading", .bool true),
        ("baseCurrency", .str b), ("quoteCurrency", .str q)]]) from rfl,
      except_bind_ok,
      show pyIter (.arr [Json.obj [("enableTrading", .bool true),
        ("baseCurrency", .str b), ("quoteCurrency", .str q)]]) =
      .ok [.obj [("enableTrading", .bool true), ("baseCurrency", .str b),
        ("quoteCurrency", .str q)]] from rfl,
      except_bind_ok]
    rw [show List.foldlM kucoinInfoStep []
        [Json.obj [("enableTrading", .bool true), ("baseCurrency", .str b),
          ("quoteCurrency", .str q)]] =
      kucoinInfoStep [] (.obj [("enableTrading", .bool true),
        ("baseCurrency", .str b), ("quoteCurrency", .str q)]) >>=
        fun out => pure out from rfl]
    rw [show kucoinInfoStep [] (.obj [("enableTrading", .bool true),
        ("baseCurrency", .str b), ("quoteCurrency", .str q)]) =
      .ok [⟨pyStr (.str b) ++ "/" ++ pyStr (.str q), "TRADING", pyStr (.str b),
        pyStr (.str q), 0, 0, 1, 1⟩] from rfl]
    rw [except_bind_ok]
    rfl
  · intro entries hentries
    unfold normalize_exchange_info
    rw [show pyGet (.obj [("data", .arr entries)]) "data" (.arr []) =
        .ok (.arr entries) from rfl, except_bind_ok,
      show pyIter (.arr entries) = .ok entries from rfl, except_bind_ok]
    obtain ⟨out, hout⟩ := foldlM_ok kucoinInfoStep entries []
      (fun e hmem acc => kucoinInfoStep_ok (hentries e hmem) acc)
    rw [hout, except_bind_ok]
    exact ⟨_, rfl⟩
  · intro entries hentries
    unfold normalize_balance
    rw [show pyGet (.obj [("data", .arr entries)]) "data" (.arr []) =
        .ok (.arr entries) from rfl, except_bind_ok]
    cases entries with
    | nil => exact ⟨[], rfl⟩
    | cons e t =>
      obtain ⟨out, hout⟩ := foldlM_ok kucoinBalanceStep (e :: t) []
        (fun x hx acc => kucoinBalanceStep_ok (hentries x hx) acc)
      cases e with
      | obj fs => exact ⟨out, hout⟩
      | null => exact absurd (hentries _ (List.mem_cons_self _ _)) (by simp [balEntryOK])
      | bool b => exact absurd (hentries _ (List.mem_cons_self _ _)) (by simp [balEntryOK])
      | num q => exact absurd (hentries _ (List.mem_cons_self _ _)) (by simp [balEntryOK])
      | str s => exact absurd (hentries _ (List.mem_cons_self _ _)) (by simp [balEntryOK])
      | arr l => exact absurd (hentries _ (List.mem_cons_self _ _)) (by simp [balEntryOK])

/-- Witness for the amended C8 at concrete raw responses. -/
theorem normalizer_missing_field_defaults_witness :
    normalize_exchange_info (.obj [("time", .num 5)]) =
      .ok ⟨"KUCOIN", [], .num 5⟩ ∧
    normalize_balance (.obj [("time", .num 5)]) = .ok [] ∧
    normalize_exchange_info (.obj [("data", .arr [.obj
      [("enableTrading", .bool true), ("baseCurrency", .str "BTC"),
       ("quoteCurrency", .str "USDT")]])]) =
      .ok ⟨"KUCOIN", [⟨"BTC" ++ "/" ++ "USDT", "TRADING", "BTC", "USDT", 0, 0,
        1, 1⟩], Json.null⟩ ∧
    (∃ out, normalize_exchange_info rawInfoGood = .ok out) ∧
    (∃ out, normalize_balance rawBalanceGood = .ok out) := by
  have h := normalizer_missing_field_defaults
  refine ⟨h.1 [("time", .num 5)] rfl, h.2.1 [("time", .num 5)] rfl,
    h.2.2.1 "BTC" "USDT", ?_, ?_⟩
  · exact h.2.2.2.1 _ (by decide)
  · exact h.2.2.2.2.1 _ (by decide)

end ArbBot
